import Mathlib

/-!
# protoc-gen-tstypes: the type mapper and the declaration emitter

A shallow embedding of `protoc-gen-tstypes/gentstypes/generator.go`.

* Descriptors (`desc.FieldDescriptor`, `desc.EnumDescriptor`, ...) come from the
  protoreflect library; they are modelled as records holding what the generator
  reads through their accessors (`GetName`, `GetType`, `IsMap`, ...).
* An accessor that returns a nil pointer in Go (`GetEnumType` on a field that is
  not of enum kind, `GetMapKeyType` on a field that is not a map, ...) is an
  `Option` here; calling a method on that nil pointer panics in Go, which is the
  result `none` of `rawFieldType` and `fieldType`.
* The generator (`*Generator`) is a record of its text buffer and indentation
  cursor; a method that writes to the buffer is a function `Generator → Generator`,
  or `Generator → Option Generator` when it can panic (through `fieldType`, or
  through the slice expression of `decIndent`).
* `filepath`, `strings` and `sort` are modelled after the Go standard library. The
  template engine (`html/template` with the sprig functions) is a parameter of
  `genName`; what it writes is stated for a few patterns only (`knownRendering`).
-/

namespace gentstypes

/-! ## Descriptor model -/

/-- What the generator reads from the file a descriptor is declared in
(`GetFile()`): the file name and its package. -/
structure FileRef where
  name : String
  package : String

/-- One value of an enum: `GetName()` and `GetNumber()` (an int32). -/
structure EnumValueDescriptor where
  name : String
  number : Int

/-- The view of `*desc.EnumDescriptor` used by the generator. -/
structure EnumDescriptor where
  name : String
  fullyQualifiedName : String
  file : FileRef
  values : List EnumValueDescriptor

/-- The view of a `*desc.MessageDescriptor` reached through a reference (the type of
a field, the input or output type of a method). -/
structure MessageRef where
  name : String
  fullyQualifiedName : String
  file : FileRef

/-- The view of `*desc.FieldDescriptor`: `type` is the number of
`descriptor.FieldDescriptorProto_Type` returned by `GetType()`; `enumType`,
`messageType`, `mapKeyType`, `mapValueType` are the pointers returned by the
accessors of the same names, `none` for nil. -/
inductive FieldDescriptor where
  | mk (name : String) (type : Int) (isRepeated : Bool) (isMap : Bool) (file : FileRef)
      (enumType : Option EnumDescriptor) (messageType : Option MessageRef)
      (mapKeyType : Option FieldDescriptor) (mapValueType : Option FieldDescriptor)

namespace FieldDescriptor

def name : FieldDescriptor → String
  | mk n _ _ _ _ _ _ _ _ => n

def type : FieldDescriptor → Int
  | mk _ t _ _ _ _ _ _ _ => t

def isRepeated : FieldDescriptor → Bool
  | mk _ _ r _ _ _ _ _ _ => r

def isMap : FieldDescriptor → Bool
  | mk _ _ _ m _ _ _ _ _ => m

def file : FieldDescriptor → FileRef
  | mk _ _ _ _ f _ _ _ _ => f

def enumType : FieldDescriptor → Option EnumDescriptor
  | mk _ _ _ _ _ e _ _ _ => e

def messageType : FieldDescriptor → Option MessageRef
  | mk _ _ _ _ _ _ m _ _ => m

def mapKeyType : FieldDescriptor → Option FieldDescriptor
  | mk _ _ _ _ _ _ _ k _ => k

def mapValueType : FieldDescriptor → Option FieldDescriptor
  | mk _ _ _ _ _ _ _ _ v => v

end FieldDescriptor

/-- The view of `*desc.MessageDescriptor` as a declaration: `GetName()`,
`GetFields()`, `GetNestedEnumTypes()`, `GetNestedMessageTypes()`. -/
inductive MessageDescriptor where
  | mk (name : String) (fields : List FieldDescriptor) (nestedEnumTypes : List EnumDescriptor)
      (nestedMessageTypes : List MessageDescriptor)

namespace MessageDescriptor

def name : MessageDescriptor → String
  | mk n _ _ _ => n

def fields : MessageDescriptor → List FieldDescriptor
  | mk _ fs _ _ => fs

def nestedEnumTypes : MessageDescriptor → List EnumDescriptor
  | mk _ _ es _ => es

def nestedMessageTypes : MessageDescriptor → List MessageDescriptor
  | mk _ _ _ ms => ms

end MessageDescriptor

/-! The numbers of `descriptor.FieldDescriptorProto_Type` (descriptor.proto). -/

def TYPE_DOUBLE : Int := 1
def TYPE_FLOAT : Int := 2
def TYPE_INT64 : Int := 3
def TYPE_UINT64 : Int := 4
def TYPE_INT32 : Int := 5
def TYPE_FIXED64 : Int := 6
def TYPE_FIXED32 : Int := 7
def TYPE_BOOL : Int := 8
def TYPE_STRING : Int := 9
def TYPE_GROUP : Int := 10
def TYPE_MESSAGE : Int := 11
def TYPE_BYTES : Int := 12
def TYPE_UINT32 : Int := 13
def TYPE_ENUM : Int := 14
def TYPE_SFIXED32 : Int := 15
def TYPE_SFIXED64 : Int := 16
def TYPE_SINT32 : Int := 17
def TYPE_SINT64 : Int := 18

/-! ## Type mapper -/

/-- `rawFieldType`: the switch over `f.GetType()`. The twelve numeric cases fall
through to `"number"`; after the switch comes `"any /*unknown*/"`. -/
def rawFieldType (f : FieldDescriptor) : Option String :=
  if f.type = TYPE_DOUBLE ∨ f.type = TYPE_FLOAT ∨ f.type = TYPE_INT64 ∨ f.type = TYPE_UINT64
      ∨ f.type = TYPE_INT32 ∨ f.type = TYPE_FIXED64 ∨ f.type = TYPE_FIXED32
      ∨ f.type = TYPE_UINT32 ∨ f.type = TYPE_SFIXED32 ∨ f.type = TYPE_SFIXED64
      ∨ f.type = TYPE_SINT32 ∨ f.type = TYPE_SINT64 then
    some "number"
  else if f.type = TYPE_BOOL then
    some "boolean"
  else if f.type = TYPE_STRING then
    some "string"
  else if f.type = TYPE_BYTES then
    some "Uint8Array"
  else if f.type = TYPE_ENUM then
    match f.enumType with
    | none => none
    | some e => some e.name
  else if f.type = TYPE_MESSAGE then
    match f.messageType with
    | none => none
    | some t =>
      if t.file.package ≠ f.file.package then
        some t.fullyQualifiedName
      else
        some t.name
  else
    some "any /*unknown*/"

/-- `rawFieldType` applied to a pointer that may be nil (`f.GetType()` on nil panics). -/
def rawFieldTypePtr : Option FieldDescriptor → Option String
  | none => none
  | some f => rawFieldType f

/-- `fieldType`: the raw type of the field is computed first, then the map test,
then the repeated test. -/
def fieldType (f : FieldDescriptor) : Option String :=
  match rawFieldType f with
  | none => none
  | some t =>
    if f.isMap then
      match rawFieldTypePtr f.mapKeyType with
      | none => none
      | some k =>
        match rawFieldTypePtr f.mapValueType with
        | none => none
        | some v => some ("\x7b [key: " ++ k ++ "]: " ++ v ++ " \x7d")
    else if f.isRepeated then
      some ("Array<" ++ t ++ ">")
    else
      some t

/-! ## Generator state and declaration emitter -/

/-- The view of `*desc.MethodDescriptor`: `GetName()`, `GetInputType()`,
`GetOutputType()`, `IsClientStreaming()`, `IsServerStreaming()`. -/
structure MethodDescriptor where
  name : String
  inputType : MessageRef
  outputType : MessageRef
  isClientStreaming : Bool
  isServerStreaming : Bool

/-- The view of `*desc.ServiceDescriptor`: `GetName()` and `GetMethods()`. -/
structure ServiceDescriptor where
  name : String
  methods : List MethodDescriptor

/-- The view of `*desc.FileDescriptor`: `GetName()`, `GetPackage()`, and the
top-level declarations `GetEnumTypes()`, `GetMessageTypes()`, `GetServices()`. -/
structure FileDescriptor where
  name : String
  package : String
  enumTypes : List EnumDescriptor
  messageTypes : List MessageDescriptor
  services : List ServiceDescriptor

structure Parameters where
  AsyncIterators : Bool
  DeclareNamespace : Bool
  OutputNamePattern : String
  DumpRequestDescriptor : Bool
  EnumsAsInt : Bool
  Verbose : Int

/-- The part of `plugin.CodeGeneratorRequest` read by the generator: the names of
the files to generate. -/
structure CodeGeneratorRequest where
  FileToGenerate : List String := []

/-- One generated file of the response. -/
structure CodeGeneratorResponse_File where
  Name : String
  Content : String

/-- The `plugin.CodeGeneratorResponse`: the generated files, in the order they were
appended. -/
structure CodeGeneratorResponse where
  File : List CodeGeneratorResponse_File := []

/-- The generator: the text written so far and the indentation cursor, with the
request and the response (empty in `New()`). -/
structure Generator where
  Buffer : String
  indent : String
  Request : CodeGeneratorRequest := {}
  Response : CodeGeneratorResponse := {}

/-- `g.w(s)`: writes the indentation, then `s`. -/
def Generator.w (g : Generator) (s : String) : Generator :=
  { g with Buffer := g.Buffer ++ g.indent ++ s }

/-- `g.W(s)`: `g.w(s)`, then a newline. -/
def Generator.W (g : Generator) (s : String) : Generator :=
  let g := g.w s
  { g with Buffer := g.Buffer ++ "\n" }

/-- The verb `%v` of `fmt.Sprintf` applied to an int32: its decimal digits, after a
minus sign when it is negative. -/
def sprintInt (n : Int) : String :=
  if n < 0 then "-" ++ Nat.repr n.natAbs else Nat.repr n.natAbs

/-- `generateEnum`: the opening line, one line per value in the order of
`e.GetValues()` (the number of the value when `EnumsAsInt`, its quoted name
otherwise), the closing line. -/
def generateEnum (g : Generator) (e : EnumDescriptor) (params : Parameters) : Generator :=
  let g := g.W ("export enum " ++ e.name ++ " \x7b")
  let g := e.values.foldl
    (fun g v =>
      if params.EnumsAsInt then
        g.W ("    " ++ v.name ++ " = " ++ sprintInt v.number ++ ",")
      else
        g.W ("    " ++ v.name ++ " = \"" ++ v.name ++ "\","))
    g
  g.W "\x7d"

/-- `generateServiceMethod`. -/
def generateServiceMethod (g : Generator) (method : MethodDescriptor) (params : Parameters) :
    Generator :=
  let i := method.inputType.name
  let o := method.outputType.name
  if params.AsyncIterators then
    let o := if method.isServerStreaming then "AsyncIterator<" ++ o ++ ">" else o
    let i := if method.isClientStreaming then "AsyncIterator<" ++ i ++ ">" else i
    g.W (method.name ++ ": (r:" ++ i ++ ") => " ++ o ++ ";")
  else
    let ss := method.isServerStreaming
    let cs := method.isClientStreaming
    if !(ss || cs) then
      g.W (method.name ++ ": (r:" ++ i ++ ") => " ++ o ++ ";")
    else if !cs then
      g.W (method.name ++ ": (r:" ++ i ++ ", cb:(a:\x7bvalue: " ++ o
        ++ ", done: boolean\x7d) => void) => void;")
    else if !ss then
      g.W (method.name ++ ": (r:() => \x7bvalue: " ++ i ++ ", done: boolean\x7d) => " ++ o ++ ";")
    else
      g.W (method.name ++ ": (r:() => \x7bvalue: " ++ i ++ ", done: boolean\x7d, cb:(a:\x7bvalue: "
        ++ o ++ ", done: boolean\x7d) => void) => void;")

/-- The indentation unit `const indent`. -/
def indent : String := "  "

/-- `g.incIndent()`. -/
def Generator.incIndent (g : Generator) : Generator :=
  { g with indent := g.indent ++ gentstypes.indent }

/-- `g.decIndent()`: the cursor without its last `len(indent)` bytes; the slice
expression panics (`none`) when the cursor is shorter than that. The cursor only
ever holds spaces, so bytes are counted as characters. -/
def Generator.decIndent (g : Generator) : Option Generator :=
  if g.indent.length < gentstypes.indent.length then
    none
  else
    some { g with
      indent := String.mk (g.indent.data.take (g.indent.length - gentstypes.indent.length)) }

/-- `generateEnums`. -/
def generateEnums (g : Generator) (enums : List EnumDescriptor) (params : Parameters) :
    Generator :=
  enums.foldl (fun g e => generateEnum g e params) g

/-- `generateMessage`: the nested enums, the opening line, one line per field, the
closing line. `fieldType` is evaluated before the line of the field is written; its
panic ends the run. -/
def generateMessage (g : Generator) (m : MessageDescriptor) (params : Parameters) :
    Option Generator :=
  let g := m.nestedEnumTypes.foldl (fun g e => generateEnum g e params) g
  let g := g.W ("export interface " ++ m.name ++ " \x7b")
  match m.fields.foldlM
      (fun g f =>
        match fieldType f with
        | none => none
        | some t => some (g.W (indent ++ f.name ++ "?: " ++ t ++ ";")))
      g with
  | none => none
  | some g => some (g.W "\x7d\n")

/-- `generateMessages`. -/
def generateMessages (g : Generator) (messages : List MessageDescriptor)
    (params : Parameters) : Option Generator :=
  messages.foldlM (fun g m => generateMessage g m params) g

/-- `generateServiceMethods`. -/
def generateServiceMethods (g : Generator) (service : ServiceDescriptor)
    (params : Parameters) : Generator :=
  service.methods.foldl (fun g m => generateServiceMethod g m params) g

/-- `generateService`. -/
def generateService (g : Generator) (service : ServiceDescriptor) (params : Parameters) :
    Option Generator :=
  let g := g.W ("export interface " ++ service.name ++ "Service \x7b")
  let g := g.incIndent
  let g := generateServiceMethods g service params
  match g.decIndent with
  | none => none
  | some g => some (g.W "\x7d")

/-- `generateServices`. -/
def generateServices (g : Generator) (services : List ServiceDescriptor)
    (params : Parameters) : Option Generator :=
  services.foldlM (fun g e => generateService g e params) g

/-- `generate`: the enums, then the messages, then the services of the file. -/
def generate (g : Generator) (f : FileDescriptor) (params : Parameters) : Option Generator :=
  let g := generateEnums g f.enumTypes params
  match generateMessages g f.messageTypes params with
  | none => none
  | some g => generateServices g f.services params

/-! ## Output names

`filepath.Base`, `filepath.Dir`, `filepath.Clean` and `strings.HasSuffix` follow the
Go standard library on Unix. The separator, the dot and the letters of `.proto` are
ASCII, so working on characters agrees with working on bytes. -/

/-- `os.IsPathSeparator` on Unix. -/
def isPathSeparator (c : Char) : Bool := c == '/'

/-- `strings.HasSuffix`: `len(s) >= len(suffix) && s[len(s)-len(suffix):] == suffix`. -/
def stringsHasSuffix (s suffix : String) : Bool :=
  decide (suffix.length ≤ s.length ∧ s.data.drop (s.length - suffix.length) = suffix.data)

/-- `filepath.Base`: the last element of the path, after trailing separators are
removed; `.` for the empty path, a single separator for a path of separators. -/
def filepathBase (path : String) : String :=
  if path = "" then
    "."
  else
    let stripped := (path.data.reverse.dropWhile isPathSeparator).reverse
    let last := (stripped.reverse.takeWhile (fun c => !isPathSeparator c)).reverse
    if last = [] then "/" else String.mk last

/-- The inner loop of the `..` case of `filepath.Clean`:
`for out.w > dotdot && !os.IsPathSeparator(out.index(out.w)) { out.w-- }`. -/
def cleanBacktrack (out : List Char) (dotdot : Nat) : Nat → Nat
  | 0 => 0
  | w + 1 =>
    if w + 1 > dotdot ∧ isPathSeparator (out.getD (w + 1) '/') = false then
      cleanBacktrack out dotdot w
    else
      w + 1

/-- The main loop of `filepath.Clean` over the rest of the path from position `r`;
one unit of fuel per iteration of the loop, each of which reads at least one
character. -/
def cleanLoop : Nat → List Char → Bool → List Char → Nat → List Char
  | 0, _, _, out, _ => out
  | fuel + 1, path, rooted, out, dotdot =>
    match path with
    | [] => out
    | c :: rest =>
      if isPathSeparator c then
        cleanLoop fuel rest rooted out dotdot
      else if c = '.' ∧ (rest = [] ∨ rest.head?.map isPathSeparator = some true) then
        cleanLoop fuel rest rooted out dotdot
      else if c = '.' ∧ rest.head? = some '.'
          ∧ (rest.tail = [] ∨ rest.tail.head?.map isPathSeparator = some true) then
        if out.length > dotdot then
          let w := cleanBacktrack out dotdot (out.length - 1)
          cleanLoop fuel rest.tail rooted (out.take w) dotdot
        else if !rooted then
          let out := (if out.length > 0 then out ++ ['/'] else out) ++ ['.', '.']
          cleanLoop fuel rest.tail rooted out out.length
        else
          cleanLoop fuel rest.tail rooted out dotdot
      else
        let out :=
          if (rooted && out.length != 1) || (!rooted && out.length != 0) then out ++ ['/']
          else out
        let element := (c :: rest).takeWhile (fun c => !isPathSeparator c)
        cleanLoop fuel ((c :: rest).dropWhile (fun c => !isPathSeparator c)) rooted
          (out ++ element) dotdot

/-- `filepath.Clean`. -/
def filepathClean (path : String) : String :=
  if path = "" then
    "."
  else
    let rooted := (path.data.head?.map isPathSeparator) = some true
    let out :=
      if rooted then cleanLoop (path.length + 1) path.data.tail true ['/'] 1
      else cleanLoop (path.length + 1) path.data false [] 0
    if out = [] then "." else String.mk out

/-- `filepath.Dir`: `Clean` of the path up to and including its last separator. -/
def filepathDir (path : String) : String :=
  let upto := (path.data.reverse.dropWhile (fun c => !isPathSeparator c)).reverse
  filepathClean (String.mk upto)

/-- The `OutputNameContext` the output name pattern is evaluated against. -/
structure OutputNameContext where
  Dir : String
  BaseName : String
  Descriptor : FileDescriptor
  Request : CodeGeneratorRequest

/-- The context built by `genName`: the directory of the file name, and its last
element without a final `.proto`. -/
def genNameContext (r : CodeGeneratorRequest) (f : FileDescriptor) : OutputNameContext :=
  let n := filepathBase f.name
  let n :=
    if stringsHasSuffix n ".proto" then String.mk (n.data.take (n.length - ".proto".length))
    else n
  { Dir := filepathDir f.name, BaseName := n, Descriptor := f, Request := r }

/-- The template engine of `genName`:
`template.Must(template.New(..).Funcs(sprig.FuncMap()).Parse(outPattern))` followed
by `t.Execute(buf, ctx)`, with `html/template`. From the pattern and the context it
gives the text written, or `none` when parsing panics or execution fails
(`log.Fatalln`). The library is not part of the repository, so the engine is a
parameter of `genName`, and theorems about `genName` hold for every engine. -/
abbrev TemplateEngine : Type := String → OutputNameContext → Option String

/-- `genName`: the output name pattern evaluated by the template engine against the
context of the file (which holds the request as it was received). -/
def genName (tmpl : TemplateEngine) (r : CodeGeneratorRequest) (f : FileDescriptor)
    (outPattern : String) : Option String :=
  tmpl outPattern (genNameContext r f)

/-! ### Known renderings of `html/template`

What `html/template` writes for the patterns made of literal text without `<` and of
the actions `.Dir`, `.BaseName` and `index .Request.FileToGenerate k`. In the
definitions of this part `none` means that the pattern is not covered here; it says
nothing about what the library does with it. -/

/-- A parsed pattern: literal text, the actions that print the fields `Dir` and
`BaseName` of the context, and the action that prints the `k`-th requested name. -/
inductive TemplateNode where
  | text (s : String)
  | dir
  | baseName
  | requestFile (k : Nat)

def leftDelim : Char := Char.ofNat 123

def rightDelim : Char := Char.ofNat 125

/-- The value of a run of decimal digits. -/
def decimalValue (digits : List Char) : Option Nat :=
  if digits ≠ [] ∧ digits.all (fun c => c.isDigit) = true then
    some (digits.foldl (fun n c => 10 * n + (c.toNat - 48)) 0)
  else none

/-- The action between the delimiters, spaces around it allowed: `.Dir`,
`.BaseName`, or `index .Request.FileToGenerate k` with `k` in decimal digits. -/
def parseAction (body : List Char) : Option TemplateNode :=
  let trimmed := ((body.dropWhile (fun c => c == ' ')).reverse.dropWhile (fun c => c == ' ')).reverse
  if String.mk trimmed = ".Dir" then some TemplateNode.dir
  else if String.mk trimmed = ".BaseName" then some TemplateNode.baseName
  else if trimmed.take "index .Request.FileToGenerate ".length
      = "index .Request.FileToGenerate ".data then
    match decimalValue (trimmed.drop "index .Request.FileToGenerate ".length) with
    | some k => some (TemplateNode.requestFile k)
    | none => none
  else none

/-- The node for a run of literal text; text with `<` leaves the HTML text context
and is not covered. -/
def textNodes (acc : List Char) : Option (List TemplateNode) :=
  if acc = [] then some []
  else if '<' ∈ acc then none
  else some [TemplateNode.text (String.mk acc)]

/-- The lexer of the pattern: text up to a doubled left delimiter, an action up to a
doubled right delimiter. `acc` holds the text or the action read so far. -/
def parseNodes : List Char → List Char → Bool → Option (List TemplateNode)
  | [], acc, inAction => if inAction then none else textNodes acc
  | [c], acc, inAction => parseNodes [] (acc ++ [c]) inAction
  | c :: d :: rest, acc, inAction =>
    if inAction = false ∧ c = leftDelim ∧ d = leftDelim then
      match textNodes acc, parseNodes rest [] true with
      | some t, some nodes => some (t ++ nodes)
      | _, _ => none
    else if inAction = true ∧ c = rightDelim ∧ d = rightDelim then
      match parseAction acc, parseNodes rest [] false with
      | some node, some nodes => some (node :: nodes)
      | _, _ => none
    else
      parseNodes (d :: rest) (acc ++ [c]) inAction

/-- The nodes of a covered pattern. -/
def parseTemplate (outPattern : String) : Option (List TemplateNode) :=
  parseNodes outPattern.data [] false

/-- The replacement table of the HTML escaper of `html/template`. -/
def htmlReplacement (c : Char) : List Char :=
  if c = Char.ofNat 0 then [Char.ofNat 0xFFFD]
  else if c = Char.ofNat 34 then "&#34;".data
  else if c = '&' then "&amp;".data
  else if c = Char.ofNat 39 then "&#39;".data
  else if c = '+' then "&#43;".data
  else if c = '<' then "&lt;".data
  else if c = '>' then "&gt;".data
  else [c]

/-- The escaper `html/template` applies to the value of an action in HTML text. -/
def htmlEscape (s : String) : String :=
  String.mk (s.data.map htmlReplacement).flatten

/-- What one node writes: literal text is copied, the value of an action goes
through the HTML escaper. An index past the requested names is not covered. -/
def renderNode (ctx : OutputNameContext) : TemplateNode → Option String
  | TemplateNode.text s => some s
  | TemplateNode.dir => some (htmlEscape ctx.Dir)
  | TemplateNode.baseName => some (htmlEscape ctx.BaseName)
  | TemplateNode.requestFile k =>
    match ctx.Request.FileToGenerate.get? k with
    | some name => some (htmlEscape name)
    | none => none

/-- What the nodes write, one after the other. -/
def executeTemplate : List TemplateNode → OutputNameContext → Option String
  | [], _ => some ""
  | node :: rest, ctx =>
    match renderNode ctx node, executeTemplate rest ctx with
    | some a, some b => some (a ++ b)
    | _, _ => none

/-- The known rendering of a pattern against a context, `none` when the pattern is
not covered. -/
def knownRendering (outPattern : String) (ctx : OutputNameContext) : Option String :=
  match parseTemplate outPattern with
  | none => none
  | some t => executeTemplate t ctx

/-- The engine renders every covered pattern as `knownRendering` says; on the other
patterns nothing is asked of it. `html/template` is such an engine. -/
def TemplateEngine.rendersKnown (tmpl : TemplateEngine) : Prop :=
  ∀ (outPattern : String) (ctx : OutputNameContext) (s : String),
    knownRendering outPattern ctx = some s → tmpl outPattern ctx = some s

/-- The engine that renders the covered patterns and fails on all the others: the
least engine with `rendersKnown`, used to evaluate `genName` on covered patterns. -/
def htmlTemplate : TemplateEngine := knownRendering

/-! ## All files -/

/-- `sort.Strings`: the names in ascending order. The order of `String` compares
character by character, which on UTF-8 text is the order of the bytes. -/
def sortStrings (names : List String) : List String :=
  names.insertionSort (fun a b => a ≤ b)

/-- The body of the loop of `GenerateAllFiles` for the file name `n`; `files` is the
map returned by `desc.CreateFileDescriptors`, and a name missing from it gives a nil
descriptor, on which the first accessor panics. -/
def generateAllFilesBody (tmpl : TemplateEngine) (files : String → Option FileDescriptor)
    (params : Parameters) (g : Generator) (n : String) : Option Generator :=
  match files n with
  | none => none
  | some f =>
    let g :=
      if params.DeclareNamespace then
        (g.W ("declare namespace " ++ f.package ++ " \x7b\n")).incIndent
      else g
    match generate g f params with
    | none => none
    | some g =>
      match (if params.DeclareNamespace then
          match g.decIndent with
          | none => none
          | some g => some (g.W "\x7d\n")
        else some g) with
      | none => none
      | some g =>
        match genName tmpl g.Request f params.OutputNamePattern with
        | none => none
        | some n =>
          some { g with
            Response := { File := g.Response.File ++ [{ Name := n, Content := g.Buffer }] },
            Buffer := "" }

/-- The header line `GenerateAllFiles` writes, with the newline it carries. -/
def headerLine : String := "// Code generated by protoc-gen-tstypes. DO NOT EDIT.\n"

/-- `GenerateAllFiles`: the header is written once, then the requested names are
sorted and the loop runs over them. `files` is what `desc.CreateFileDescriptors`
returned; its failure (`log.Fatal`) and the dump of the request to stderr are not
part of the model. -/
def GenerateAllFiles (tmpl : TemplateEngine) (g : Generator)
    (files : String → Option FileDescriptor) (params : Parameters) : Option Generator :=
  let g := g.W headerLine
  let names := sortStrings g.Request.FileToGenerate
  names.foldlM (generateAllFilesBody tmpl files params) g

/-- The references that `desc.CreateFileDescriptors` resolves before the generator
runs: a field of enum kind has its enum descriptor, a field of message kind its
message descriptor. -/
def FieldDescriptor.resolved (f : FieldDescriptor) : Prop :=
  (f.type = TYPE_ENUM → f.enumType.isSome = true)
    ∧ (f.type = TYPE_MESSAGE → f.messageType.isSome = true)

instance (f : FieldDescriptor) : Decidable f.resolved := by
  unfold FieldDescriptor.resolved
  infer_instance

/-- Every field of the message has a type: `fieldType` returns on it. -/
def MessageDescriptor.typed (m : MessageDescriptor) : Prop :=
  ∀ f ∈ m.fields, (fieldType f).isSome = true

instance (m : MessageDescriptor) : Decidable m.typed := by
  unfold MessageDescriptor.typed
  infer_instance

/-- Every field of every top-level message of the file has a type. -/
def FileDescriptor.typed (f : FileDescriptor) : Prop :=
  ∀ m ∈ f.messageTypes, m.typed

instance (f : FileDescriptor) : Decidable f.typed := by
  unfold FileDescriptor.typed
  infer_instance

/-- The message without its nested message types. -/
def MessageDescriptor.withoutNestedMessages (m : MessageDescriptor) : MessageDescriptor :=
  .mk m.name m.fields m.nestedEnumTypes []

/-! ## Declarations as text

The text of each kind of declaration at the indentation `ind`, written out line by
line; the emitters are compared with these below. `ty` gives the type of a field. -/

/-- The declaration of an enum: opening line, one line per value, closing line. -/
def enumDecl (ind : String) (params : Parameters) (e : EnumDescriptor) : String :=
  String.join
    ((["export enum " ++ e.name ++ " \x7b"]
      ++ e.values.map (fun v =>
          if params.EnumsAsInt then "    " ++ v.name ++ " = " ++ sprintInt v.number ++ ","
          else "    " ++ v.name ++ " = \"" ++ v.name ++ "\",")
      ++ ["\x7d"]).map (fun l => ind ++ l ++ "\n"))

/-- The interface block of a message: opening line, one line per field, closing
line, and an empty line. -/
def interfaceDecl (ind : String) (ty : FieldDescriptor → String) (m : MessageDescriptor) :
    String :=
  String.join
    ((["export interface " ++ m.name ++ " \x7b"]
      ++ m.fields.map (fun f => "  " ++ f.name ++ "?: " ++ ty f ++ ";")
      ++ ["\x7d"]).map (fun l => ind ++ l ++ "\n"))
  ++ "\n"

/-- The line of a method, newline included, as `generateServiceMethod` writes it
into an empty buffer at no indentation. -/
def methodLine (params : Parameters) (m : MethodDescriptor) : String :=
  (generateServiceMethod { Buffer := "", indent := "" } m params).Buffer

/-- The declaration of a service: opening line, the method lines one indentation
unit deeper, closing line. -/
def serviceDecl (ind : String) (params : Parameters) (s : ServiceDescriptor) : String :=
  (ind ++ ("export interface " ++ s.name ++ "Service \x7b") ++ "\n")
  ++ String.join (s.methods.map (fun m => ind ++ indent ++ methodLine params m))
  ++ (ind ++ "\x7d" ++ "\n")

/-- The declarations of a file: the enums, then for each message its nested enums
and its interface block, then the services. -/
def fileDecls (ind : String) (params : Parameters) (ty : FieldDescriptor → String)
    (f : FileDescriptor) : String :=
  String.join (f.enumTypes.map (enumDecl ind params))
  ++ String.join (f.messageTypes.map (fun m =>
      String.join (m.nestedEnumTypes.map (enumDecl ind params)) ++ interfaceDecl ind ty m))
  ++ String.join (f.services.map (serviceDecl ind params))

/-- The text the loop of `GenerateAllFiles` writes for one file: the declarations,
inside a namespace block when `DeclareNamespace`. -/
def fileContent (ind : String) (params : Parameters) (ty : FieldDescriptor → String)
    (f : FileDescriptor) : String :=
  if params.DeclareNamespace then
    (ind ++ ("declare namespace " ++ f.package ++ " \x7b\n") ++ "\n")
    ++ fileDecls (ind ++ indent) params ty f
    ++ (ind ++ "\x7d\n" ++ "\n")
  else
    fileDecls ind params ty f

/-- The response files for a list of names taken in order: the file of each name has
the name `outName n` and the text of the descriptor `file n`; the content of the
first one comes after `start`, the text already in the buffer. -/
def responseFiles (start ind : String) (params : Parameters) (ty : FieldDescriptor → String)
    (file : String → FileDescriptor) (outName : String → String) :
    List String → List CodeGeneratorResponse_File
  | [] => []
  | n :: rest =>
    { Name := outName n, Content := start ++ fileContent ind params ty (file n) }
      :: rest.map (fun n =>
          { Name := outName n, Content := fileContent ind params ty (file n) })

/-! ## Ordinary paths -/

/-- The path made of the given elements, with a separator between two of them. -/
def joinComponents : List String → String
  | [] => ""
  | [c] => c
  | c :: d :: cs => c ++ "/" ++ joinComponents (d :: cs)

/-- An ordinary path element: not empty, without separator, and neither `.` nor
`..`. -/
def ordinaryComponent (c : String) : Prop :=
  c ≠ "" ∧ '/' ∉ c.data ∧ c ≠ "." ∧ c ≠ ".."

instance (c : String) : Decidable (ordinaryComponent c) := by
  unfold ordinaryComponent
  infer_instance

/-- The examples of the documentation of `filepath.Dir` and `filepath.Base` on Unix,
and some more paths with empty, `.` and `..` elements: the path, its `Dir`, its
`Base`. -/
def pathExamples : List (String × String × String) :=
  [("/foo/bar/baz.js", "/foo/bar", "baz.js"),
   ("/foo/bar/baz", "/foo/bar", "baz"),
   ("/foo/bar/baz/", "/foo/bar/baz", "baz"),
   ("/dirty//path///", "/dirty/path", "path"),
   ("dev.txt", ".", "dev.txt"),
   ("../todo.txt", "..", "todo.txt"),
   ("..", ".", ".."),
   (".", ".", "."),
   ("/", "/", "/"),
   ("", ".", "."),
   ("a/b/foo.proto", "a/b", "foo.proto"),
   ("a/b/../c/foo.proto", "a/c", "foo.proto"),
   ("a/b/c/../../foo.proto", "a", "foo.proto"),
   ("./a//b/./foo.proto", "a/b", "foo.proto"),
   ("a/../../foo.proto", "..", "foo.proto"),
   ("../../a/foo.proto", "../../a", "foo.proto"),
   ("/../a/foo.proto", "/a", "foo.proto"),
   ("/a/../../foo.proto", "/", "foo.proto"),
   ("a/..b/.c/foo.proto", "a/..b/.c", "foo.proto"),
   ("a/../foo.proto", ".", "foo.proto"),
   ("///", "/", "/")]

/-! ## Sample descriptors -/

def fileMain : FileRef := { name := "main.proto", package := "main" }

def fileMainTypes : FileRef := { name := "types.proto", package := "main" }

def fileOther : FileRef := { name := "other.proto", package := "other" }

def msgLocal : MessageRef :=
  { name := "Item", fullyQualifiedName := "main.Item", file := fileMainTypes }

def msgForeign : MessageRef :=
  { name := "Item", fullyQualifiedName := "other.Item", file := fileOther }

def enumLocal : EnumDescriptor :=
  { name := "Color", fullyQualifiedName := "main.Color", file := fileMain,
    values := [{ name := "RED", number := 0 }, { name := "GREEN", number := 1 }] }

def enumForeign : EnumDescriptor :=
  { name := "Color", fullyQualifiedName := "other.Color", file := fileOther,
    values := [{ name := "RED", number := 0 }, { name := "GREEN", number := 1 }] }

/-- A scalar field of the given kind, declared in `main.proto`. -/
def scalarField (name : String) (type : Int) (isRepeated : Bool) : FieldDescriptor :=
  .mk name type isRepeated false fileMain none none none none

/-- The field `repeated string tags`. -/
def tagsField : FieldDescriptor := scalarField "tags" TYPE_STRING true

/-- The field `string name`. -/
def nameField : FieldDescriptor := scalarField "name" TYPE_STRING false

/-- The field `map<string, other.Item> items`: a repeated field of the synthetic
entry message, whose field 1 is the key and field 2 the value. -/
def itemsField : FieldDescriptor :=
  .mk "items" TYPE_MESSAGE true true fileMain none
    (some { name := "ItemsEntry", fullyQualifiedName := "main.Holder.ItemsEntry", file := fileMain })
    (some (scalarField "key" TYPE_STRING false))
    (some (.mk "value" TYPE_MESSAGE false false fileMain none (some msgForeign) none none))

/-- A singular field of message kind, declared in `main.proto`. -/
def messageField (t : MessageRef) : FieldDescriptor :=
  .mk "item" TYPE_MESSAGE false false fileMain none (some t) none none

/-- A singular field of enum kind, declared in `main.proto`. -/
def enumField (e : EnumDescriptor) : FieldDescriptor :=
  .mk "color" TYPE_ENUM false false fileMain (some e) none none none

/-- The generator before anything is written. -/
def emptyGenerator : Generator := { Buffer := "", indent := "" }

/-- A generator inside a declaration body: some text written, two levels deep. -/
def nestedGenerator : Generator := { Buffer := "// header\n", indent := "    " }

def defaultParams : Parameters :=
  { AsyncIterators := false, DeclareNamespace := false,
    OutputNamePattern := "\x7b\x7b.Dir\x7d\x7d/\x7b\x7b.BaseName\x7d\x7d.d.ts",
    DumpRequestDescriptor := false, EnumsAsInt := false, Verbose := 0 }

def asyncParams : Parameters := { defaultParams with AsyncIterators := true }

def intEnumParams : Parameters := { defaultParams with EnumsAsInt := true }

def msgIn : MessageRef := { name := "In", fullyQualifiedName := "main.In", file := fileMain }

def msgOut : MessageRef := { name := "Out", fullyQualifiedName := "main.Out", file := fileMain }

/-- The method `M` from `In` to `Out` with the given streaming flags. -/
def sampleMethod (clientStreaming serverStreaming : Bool) : MethodDescriptor :=
  { name := "M", inputType := msgIn, outputType := msgOut,
    isClientStreaming := clientStreaming, isServerStreaming := serverStreaming }

/-- An enum with a negative number among its values. -/
def enumSigned : EnumDescriptor :=
  { name := "Sign", fullyQualifiedName := "main.Sign", file := fileMain,
    values := [{ name := "NEG", number := -1 }, { name := "BIG", number := 2147483647 }] }

/-- The message `Person` with the single field `string name`. -/
def personMessage : MessageDescriptor := .mk "Person" [nameField] [] []

/-- The nested message `N`, with one field. -/
def nestedMessage : MessageDescriptor := .mk "N" [scalarField "id" TYPE_INT32 false] [] []

/-- The message `M` with a repeated field, the nested enum `Color` and the nested
message `N`. -/
def outerMessage : MessageDescriptor := .mk "M" [tagsField] [enumLocal] [nestedMessage]

/-- A service with a unary and a bidirectional streaming method. -/
def sampleService : ServiceDescriptor :=
  { name := "Greeter", methods := [sampleMethod false false, sampleMethod true true] }

/-- A method whose input message is declared in the package `other`. -/
def foreignMethod : MethodDescriptor :=
  { name := "Get", inputType := msgForeign, outputType := msgOut,
    isClientStreaming := false, isServerStreaming := false }

/-- The file `main.proto`: an enum, the message `M` and a service. -/
def mainFile : FileDescriptor :=
  { name := "main.proto", package := "main", enumTypes := [enumSigned],
    messageTypes := [outerMessage], services := [sampleService] }

/-- A file with one message and nothing else. -/
def personFile (name : String) : FileDescriptor :=
  { name := name, package := "people", enumTypes := [], messageTypes := [personMessage],
    services := [] }

/-- The descriptors of `a/b/foo.proto`, `zoo.proto` and `c++/a&b.proto`. -/
def sampleFiles (n : String) : Option FileDescriptor :=
  if n = "a/b/foo.proto" ∨ n = "zoo.proto" ∨ n = "c++/a&b.proto" then some (personFile n)
  else none

def namespaceParams : Parameters := { defaultParams with DeclareNamespace := true }

/-- The output name pattern reads the first requested name of the request. -/
def indexParams : Parameters :=
  { defaultParams with
    OutputNamePattern := "\x7b\x7bindex .Request.FileToGenerate 0\x7d\x7d-\x7b\x7b.BaseName\x7d\x7d.d.ts" }

/-- A pattern with a pipeline through the sprig function `upper`, inside a namespace
block. -/
def upperParams : Parameters :=
  { namespaceParams with OutputNamePattern := "\x7b\x7b.BaseName | upper\x7d\x7d.ts" }

/-- An engine that renders the known patterns and also the pattern of `upperParams`,
to the base name in upper case followed by `.ts`. -/
def upperEngine : TemplateEngine := fun outPattern ctx =>
  if outPattern = "\x7b\x7b.BaseName | upper\x7d\x7d.ts" then
    some (htmlEscape (String.mk (ctx.BaseName.data.map Char.toUpper)) ++ ".ts")
  else knownRendering outPattern ctx

/-- A generator as `New()` returns it, with two files requested, not in order. -/
def requestGenerator : Generator :=
  { Buffer := "", indent := "", Request := { FileToGenerate := ["zoo.proto", "a/b/foo.proto"] } }

/-- The same request with the names in the other order. -/
def requestGeneratorSwapped : Generator :=
  { Buffer := "", indent := "", Request := { FileToGenerate := ["a/b/foo.proto", "zoo.proto"] } }

/-! # Theorems -/

/-! ## Helper lemmas -/

theorem rawFieldType_isSome_of_resolved (f : FieldDescriptor) (h : f.resolved) :
    ∃ t, rawFieldType f = some t := by
  obtain ⟨he, hm⟩ := h
  unfold rawFieldType
  split_ifs with h1 h2 h3 h4 h5 h6
  · exact ⟨_, rfl⟩
  · exact ⟨_, rfl⟩
  · exact ⟨_, rfl⟩
  · exact ⟨_, rfl⟩
  · have := he h5
    cases hx : f.enumType with
    | none => simp [hx] at this
    | some e => exact ⟨_, rfl⟩
  · have := hm h6
    cases hx : f.messageType with
    | none => simp [hx] at this
    | some t =>
      simp only []
      split_ifs
      · exact ⟨_, rfl⟩
      · exact ⟨_, rfl⟩
  · exact ⟨_, rfl⟩

theorem array_ne_array_array (t : String) :
    "Array<" ++ t ++ ">" ≠ "Array<Array<" ++ t ++ ">>" := by
  intro h
  have h1 := congrArg String.length h
  have a1 : "Array<".length = 6 := by decide
  have a2 : ">".length = 1 := by decide
  have a3 : "Array<Array<".length = 12 := by decide
  have a4 : ">>".length = 2 := by decide
  simp only [String.length_append, a1, a2, a3, a4] at h1
  omega

theorem array_ne_map (t k v : String) :
    "Array<" ++ t ++ ">" ≠ "\x7b [key: " ++ k ++ "]: " ++ v ++ " \x7d" := by
  intro h
  have h1 := congrArg String.data h
  simp [String.data_append] at h1

/-! ## Type mapper: cardinality wrapping -/

/-- C1. A field that is repeated and is not a map: `fieldType` is `rawFieldType`
wrapped in `Array<` `>` (it fails only where `rawFieldType` fails, and for a field
whose references are resolved it returns); the text is the raw type wrapped once,
not twice, and it is never the map rendering. -/
theorem fieldType_repeated (f : FieldDescriptor)
    (hrep : f.isRepeated = true) (hmap : f.isMap = false) :
    fieldType f = (rawFieldType f).map (fun t => "Array<" ++ t ++ ">")
    ∧ (f.resolved → ∃ t, rawFieldType f = some t ∧ fieldType f = some ("Array<" ++ t ++ ">"))
    ∧ (∀ t, rawFieldType f = some t → fieldType f ≠ some ("Array<Array<" ++ t ++ ">>"))
    ∧ (∀ k v, fieldType f ≠ some ("\x7b [key: " ++ k ++ "]: " ++ v ++ " \x7d")) := by
  have key : fieldType f = (rawFieldType f).map (fun t => "Array<" ++ t ++ ">") := by
    unfold fieldType
    cases rawFieldType f with
    | none => rfl
    | some t => simp [hrep, hmap]
  refine ⟨key, ?_, ?_, ?_⟩
  · intro hres
    obtain ⟨t, ht⟩ := rawFieldType_isSome_of_resolved f hres
    exact ⟨t, ht, by rw [key, ht]; rfl⟩
  · intro t ht
    rw [key, ht]
    intro h
    exact array_ne_array_array t (Option.some.inj h)
  · intro k v
    rw [key]
    cases rawFieldType f with
    | none => simp
    | some t =>
      intro h
      exact array_ne_map t k v (Option.some.inj h)

theorem fieldType_repeated_witness :
    tagsField.isRepeated = true ∧ tagsField.isMap = false
    ∧ fieldType tagsField = some "Array<string>"
    ∧ fieldType tagsField ≠ some "Array<Array<string>>" := by
  have h := fieldType_repeated tagsField (by decide) (by decide)
  obtain ⟨h1, -, h3, -⟩ := h
  exact ⟨by decide, by decide, by rw [h1]; decide, h3 "string" (by decide)⟩

theorem map_ne_array (k v x : String) :
    "\x7b [key: " ++ k ++ "]: " ++ v ++ " \x7d" ≠ "Array<" ++ x ++ ">" := by
  intro h
  have h1 := congrArg String.data h
  simp [String.data_append] at h1

/-- C2. A map field (whether or not it is also flagged repeated, as every map field
is) whose own raw type, key field and value field resolve: `fieldType` is
`{ [key: K]: V }` with `K`, `V` the raw types of the key and value fields; the text
is never an `Array<...>` wrapping, and two map fields with the same key and value
fields get the same text whatever their own raw types are. A field that is neither
map nor repeated: `fieldType` is `rawFieldType`. -/
theorem fieldType_map_and_singular (f : FieldDescriptor) :
    (∀ t kf vf K V, f.isMap = true → rawFieldType f = some t →
        f.mapKeyType = some kf → f.mapValueType = some vf →
        rawFieldType kf = some K → rawFieldType vf = some V →
        fieldType f = some ("\x7b [key: " ++ K ++ "]: " ++ V ++ " \x7d")
        ∧ (∀ x, fieldType f ≠ some ("Array<" ++ x ++ ">"))
        ∧ (∀ f2 t2, f2.isMap = true → rawFieldType f2 = some t2 →
            f2.mapKeyType = some kf → f2.mapValueType = some vf →
            fieldType f2 = fieldType f))
    ∧ (f.isMap = false → f.isRepeated = false → fieldType f = rawFieldType f) := by
  have key : ∀ (g : FieldDescriptor) t kf vf K V, g.isMap = true → rawFieldType g = some t →
      g.mapKeyType = some kf → g.mapValueType = some vf →
      rawFieldType kf = some K → rawFieldType vf = some V →
      fieldType g = some ("\x7b [key: " ++ K ++ "]: " ++ V ++ " \x7d") := by
    intro g t kf vf K V hm ht hk hv hK hV
    unfold fieldType
    simp [ht, hm, hk, hv, rawFieldTypePtr, hK, hV]
  refine ⟨?_, ?_⟩
  · intro t kf vf K V hm ht hk hv hK hV
    have h1 := key f t kf vf K V hm ht hk hv hK hV
    refine ⟨h1, ?_, ?_⟩
    · intro x h
      rw [h1] at h
      exact map_ne_array K V x (Option.some.inj h)
    · intro f2 t2 hm2 ht2 hk2 hv2
      rw [h1, key f2 t2 kf vf K V hm2 ht2 hk2 hv2 hK hV]
  · intro hm hr
    unfold fieldType
    cases rawFieldType f with
    | none => rfl
    | some t => simp [hm, hr]

theorem fieldType_map_and_singular_witness :
    (itemsField.isMap = true ∧ itemsField.isRepeated = true
      ∧ rawFieldType itemsField = some "ItemsEntry"
      ∧ fieldType itemsField = some "\x7b [key: string]: other.Item \x7d"
      ∧ fieldType itemsField ≠ some "Array<ItemsEntry>")
    ∧ (nameField.isMap = false ∧ nameField.isRepeated = false
      ∧ fieldType nameField = some "string") := by
  have h := (fieldType_map_and_singular itemsField).1 "ItemsEntry"
    (scalarField "key" TYPE_STRING false)
    (.mk "value" TYPE_MESSAGE false false fileMain none (some msgForeign) none none)
    "string" "other.Item" (by decide) (by decide) rfl rfl (by decide) (by decide)
  have h2 := (fieldType_map_and_singular nameField).2 (by decide) (by decide)
  refine ⟨⟨by decide, by decide, by decide, h.1, h.2.1 "ItemsEntry"⟩, by decide, by decide, ?_⟩
  rw [h2]; decide

/-! ## Type mapper: the table of kinds -/

/-- C3. The table of `rawFieldType`: the twelve numeric kinds give `number`, bool
gives `boolean`, string gives `string`, bytes gives `Uint8Array`, and every kind
number that is none of these fifteen and is neither enum nor message (the group
kind among them) gives `any /*unknown*/`; on every field whose enum or message
reference is resolved `rawFieldType` returns a type. -/
theorem rawFieldType_table (f : FieldDescriptor) :
    (f.type ∈ [TYPE_DOUBLE, TYPE_FLOAT, TYPE_INT64, TYPE_UINT64, TYPE_INT32, TYPE_FIXED64,
        TYPE_FIXED32, TYPE_UINT32, TYPE_SFIXED32, TYPE_SFIXED64, TYPE_SINT32, TYPE_SINT64] →
      rawFieldType f = some "number")
    ∧ (f.type = TYPE_BOOL → rawFieldType f = some "boolean")
    ∧ (f.type = TYPE_STRING → rawFieldType f = some "string")
    ∧ (f.type = TYPE_BYTES → rawFieldType f = some "Uint8Array")
    ∧ (f.type ∉ [TYPE_DOUBLE, TYPE_FLOAT, TYPE_INT64, TYPE_UINT64, TYPE_INT32, TYPE_FIXED64,
        TYPE_FIXED32, TYPE_UINT32, TYPE_SFIXED32, TYPE_SFIXED64, TYPE_SINT32, TYPE_SINT64,
        TYPE_BOOL, TYPE_STRING, TYPE_BYTES, TYPE_ENUM, TYPE_MESSAGE] →
      rawFieldType f = some "any /*unknown*/")
    ∧ (f.type = TYPE_GROUP → rawFieldType f = some "any /*unknown*/")
    ∧ (f.resolved → ∃ t, rawFieldType f = some t) := by
  refine ⟨?_, ?_, ?_, ?_, ?_, ?_, rawFieldType_isSome_of_resolved f⟩
  · intro h
    simp only [List.mem_cons, List.mem_singleton, List.not_mem_nil, or_false] at h
    unfold rawFieldType
    rw [if_pos h]
  · intro h
    unfold rawFieldType
    simp [h, TYPE_DOUBLE, TYPE_FLOAT, TYPE_INT64, TYPE_UINT64, TYPE_INT32, TYPE_FIXED64,
      TYPE_FIXED32, TYPE_UINT32, TYPE_SFIXED32, TYPE_SFIXED64, TYPE_SINT32, TYPE_SINT64,
      TYPE_BOOL]
  · intro h
    unfold rawFieldType
    simp [h, TYPE_DOUBLE, TYPE_FLOAT, TYPE_INT64, TYPE_UINT64, TYPE_INT32, TYPE_FIXED64,
      TYPE_FIXED32, TYPE_UINT32, TYPE_SFIXED32, TYPE_SFIXED64, TYPE_SINT32, TYPE_SINT64,
      TYPE_BOOL, TYPE_STRING]
  · intro h
    unfold rawFieldType
    simp [h, TYPE_DOUBLE, TYPE_FLOAT, TYPE_INT64, TYPE_UINT64, TYPE_INT32, TYPE_FIXED64,
      TYPE_FIXED32, TYPE_UINT32, TYPE_SFIXED32, TYPE_SFIXED64, TYPE_SINT32, TYPE_SINT64,
      TYPE_BOOL, TYPE_STRING, TYPE_BYTES]
  · intro h
    simp only [List.mem_cons, List.mem_singleton, List.not_mem_nil, or_false, not_or] at h
    obtain ⟨h1, h2, h3, h4, h5, h6, h7, h8, h9, h10, h11, h12, h13, h14, h15, h16, h17⟩ := h
    unfold rawFieldType
    simp [h1, h2, h3, h4, h5, h6, h7, h8, h9, h10, h11, h12, h13, h14, h15, h16, h17]
  · intro h
    unfold rawFieldType
    simp [h, TYPE_DOUBLE, TYPE_FLOAT, TYPE_INT64, TYPE_UINT64, TYPE_INT32, TYPE_FIXED64,
      TYPE_FIXED32, TYPE_UINT32, TYPE_SFIXED32, TYPE_SFIXED64, TYPE_SINT32, TYPE_SINT64,
      TYPE_BOOL, TYPE_STRING, TYPE_BYTES, TYPE_ENUM, TYPE_MESSAGE, TYPE_GROUP]

theorem rawFieldType_table_witness :
    rawFieldType (scalarField "a" TYPE_SINT64 false) = some "number"
    ∧ rawFieldType (scalarField "b" TYPE_BOOL false) = some "boolean"
    ∧ rawFieldType (scalarField "c" TYPE_STRING false) = some "string"
    ∧ rawFieldType (scalarField "d" TYPE_BYTES false) = some "Uint8Array"
    ∧ rawFieldType (scalarField "e" 19 false) = some "any /*unknown*/"
    ∧ rawFieldType (scalarField "g" TYPE_GROUP false) = some "any /*unknown*/"
    ∧ (∃ t, rawFieldType (enumField enumLocal) = some t) :=
  ⟨(rawFieldType_table (scalarField "a" TYPE_SINT64 false)).1 (by decide),
   (rawFieldType_table (scalarField "b" TYPE_BOOL false)).2.1 (by decide),
   (rawFieldType_table (scalarField "c" TYPE_STRING false)).2.2.1 (by decide),
   (rawFieldType_table (scalarField "d" TYPE_BYTES false)).2.2.2.1 (by decide),
   (rawFieldType_table (scalarField "e" 19 false)).2.2.2.2.1 (by decide),
   (rawFieldType_table (scalarField "g" TYPE_GROUP false)).2.2.2.2.2.1 (by decide),
   (rawFieldType_table (enumField enumLocal)).2.2.2.2.2.2
     (by decide)⟩

/-! ## Name resolution -/

/-- C4. A field of message kind whose message reference is `t`: `rawFieldType` is the
bare name of `t` when the package of the file declaring `t` equals the package of
the file declaring the field, and the fully qualified name of `t` otherwise; only
the packages are compared, so two types of one package in different files get the
bare name. -/
theorem rawFieldType_message (f : FieldDescriptor) (t : MessageRef)
    (hkind : f.type = TYPE_MESSAGE) (href : f.messageType = some t) :
    (t.file.package = f.file.package → rawFieldType f = some t.name)
    ∧ (t.file.package ≠ f.file.package → rawFieldType f = some t.fullyQualifiedName)
    ∧ (t.file.package = f.file.package → t.file.name ≠ f.file.name →
        rawFieldType f = some t.name) := by
  have key : rawFieldType f
      = if t.file.package ≠ f.file.package then some t.fullyQualifiedName else some t.name := by
    unfold rawFieldType
    simp [hkind, href, TYPE_DOUBLE, TYPE_FLOAT, TYPE_INT64, TYPE_UINT64, TYPE_INT32,
      TYPE_FIXED64, TYPE_FIXED32, TYPE_UINT32, TYPE_SFIXED32, TYPE_SFIXED64, TYPE_SINT32,
      TYPE_SINT64, TYPE_BOOL, TYPE_STRING, TYPE_BYTES, TYPE_ENUM, TYPE_MESSAGE]
  refine ⟨?_, ?_, ?_⟩
  · intro h
    rw [key, if_neg (not_not.mpr h)]
  · intro h
    rw [key, if_pos h]
  · intro h _
    rw [key, if_neg (not_not.mpr h)]

theorem rawFieldType_message_witness :
    rawFieldType (messageField msgLocal) = some "Item"
    ∧ rawFieldType (messageField msgForeign) = some "other.Item"
    ∧ msgLocal.file.name ≠ (messageField msgLocal).file.name :=
  ⟨(rawFieldType_message (messageField msgLocal) msgLocal rfl rfl).2.2 (by decide) (by decide),
   (rawFieldType_message (messageField msgForeign) msgForeign rfl rfl).2.1 (by decide),
   by decide⟩

/-- C5 (the code at the failing input). A field of enum kind declared in package
`main` whose enum `Color` is declared in package `other`: `rawFieldType` returns the
bare name `Color`, not the fully qualified name `other.Color`; a field of message
kind referring to a message of package `other` gets the qualified name. -/
theorem rawFieldType_enum_foreign_unqualified :
    (enumField enumForeign).type = TYPE_ENUM
    ∧ enumForeign.file.package ≠ (enumField enumForeign).file.package
    ∧ rawFieldType (enumField enumForeign) = some "Color"
    ∧ rawFieldType (enumField enumForeign) ≠ some enumForeign.fullyQualifiedName
    ∧ rawFieldType (messageField msgForeign) = some msgForeign.fullyQualifiedName := by
  decide

/-! ## Method signatures -/

/-- C6. Without async iterators `generateServiceMethod` writes one line (the
indentation, the signature, a newline), the signature being chosen by the two
streaming flags among the plain, the callback, the pull-function and the
pull-function-with-callback shapes; put differently, the request is a pull function
exactly when the method is client streaming, and a callback parameter with result
`void` is present exactly when it is server streaming. -/
theorem generateServiceMethod_callback_shapes (g : Generator) (m : MethodDescriptor)
    (params : Parameters) (hasync : params.AsyncIterators = false) :
    (m.isClientStreaming = false → m.isServerStreaming = false →
      generateServiceMethod g m params = { g with Buffer := g.Buffer ++ g.indent
        ++ (m.name ++ ": (r:" ++ m.inputType.name ++ ") => " ++ m.outputType.name ++ ";")
        ++ "\n" })
    ∧ (m.isClientStreaming = false → m.isServerStreaming = true →
      generateServiceMethod g m params = { g with Buffer := g.Buffer ++ g.indent
        ++ (m.name ++ ": (r:" ++ m.inputType.name ++ ", cb:(a:\x7bvalue: " ++ m.outputType.name
          ++ ", done: boolean\x7d) => void) => void;")
        ++ "\n" })
    ∧ (m.isClientStreaming = true → m.isServerStreaming = false →
      generateServiceMethod g m params = { g with Buffer := g.Buffer ++ g.indent
        ++ (m.name ++ ": (r:() => \x7bvalue: " ++ m.inputType.name ++ ", done: boolean\x7d) => "
          ++ m.outputType.name ++ ";")
        ++ "\n" })
    ∧ (m.isClientStreaming = true → m.isServerStreaming = true →
      generateServiceMethod g m params = { g with Buffer := g.Buffer ++ g.indent
        ++ (m.name ++ ": (r:() => \x7bvalue: " ++ m.inputType.name
          ++ ", done: boolean\x7d, cb:(a:\x7bvalue: " ++ m.outputType.name
          ++ ", done: boolean\x7d) => void) => void;")
        ++ "\n" })
    ∧ generateServiceMethod g m params = { g with Buffer := g.Buffer ++ g.indent
        ++ (m.name ++ ": (r:"
          ++ (if m.isClientStreaming then
                "() => \x7bvalue: " ++ m.inputType.name ++ ", done: boolean\x7d"
              else m.inputType.name)
          ++ (if m.isServerStreaming then
                ", cb:(a:\x7bvalue: " ++ m.outputType.name ++ ", done: boolean\x7d) => void) => void;"
              else ") => " ++ m.outputType.name ++ ";"))
        ++ "\n" } := by
  refine ⟨?_, ?_, ?_, ?_, ?_⟩
  · intro hc hs
    simp [generateServiceMethod, Generator.W, Generator.w, hasync, hc, hs]
  · intro hc hs
    simp [generateServiceMethod, Generator.W, Generator.w, hasync, hc, hs]
  · intro hc hs
    simp [generateServiceMethod, Generator.W, Generator.w, hasync, hc, hs]
  · intro hc hs
    simp [generateServiceMethod, Generator.W, Generator.w, hasync, hc, hs]
  · have e1 : ": (r:() => \x7bvalue: " = ": (r:" ++ "() => \x7bvalue: " := by decide
    have e2 : ", done: boolean\x7d) => " = ", done: boolean\x7d" ++ ") => " := by decide
    have e3 : ", done: boolean\x7d, cb:(a:\x7bvalue: "
        = ", done: boolean\x7d" ++ ", cb:(a:\x7bvalue: " := by decide
    cases hc : m.isClientStreaming <;> cases hs : m.isServerStreaming
    · simp [generateServiceMethod, Generator.W, Generator.w, hasync, hc, hs,
        String.append_assoc]
    · simp [generateServiceMethod, Generator.W, Generator.w, hasync, hc, hs,
        String.append_assoc]
    · simp only [generateServiceMethod, Generator.W, Generator.w, hasync, hc, hs, Bool.or_true,
        Bool.or_false, Bool.not_true, Bool.not_false, Bool.false_eq_true, if_true, if_false]
      rw [e1, e2]
      simp only [String.append_assoc]
    · simp only [generateServiceMethod, Generator.W, Generator.w, hasync, hc, hs, Bool.or_true,
        Bool.or_false, Bool.not_true, Bool.not_false, Bool.false_eq_true, if_true, if_false]
      rw [e1, e3]
      simp only [String.append_assoc]

theorem generateServiceMethod_callback_shapes_witness :
    defaultParams.AsyncIterators = false
    ∧ (generateServiceMethod emptyGenerator (sampleMethod false false) defaultParams).Buffer
        = "M: (r:In) => Out;\n"
    ∧ (generateServiceMethod emptyGenerator (sampleMethod false true) defaultParams).Buffer
        = "M: (r:In, cb:(a:\x7bvalue: Out, done: boolean\x7d) => void) => void;\n"
    ∧ (generateServiceMethod emptyGenerator (sampleMethod true false) defaultParams).Buffer
        = "M: (r:() => \x7bvalue: In, done: boolean\x7d) => Out;\n"
    ∧ (generateServiceMethod emptyGenerator (sampleMethod true true) defaultParams).Buffer
        = "M: (r:() => \x7bvalue: In, done: boolean\x7d, cb:(a:\x7bvalue: Out, done: boolean\x7d) => void) => void;\n" := by
  refine ⟨rfl, ?_, ?_, ?_, ?_⟩
  · rw [(generateServiceMethod_callback_shapes emptyGenerator (sampleMethod false false)
      defaultParams rfl).1 rfl rfl]
    decide
  · rw [(generateServiceMethod_callback_shapes emptyGenerator (sampleMethod false true)
      defaultParams rfl).2.1 rfl rfl]
    decide
  · rw [(generateServiceMethod_callback_shapes emptyGenerator (sampleMethod true false)
      defaultParams rfl).2.2.1 rfl rfl]
    decide
  · rw [(generateServiceMethod_callback_shapes emptyGenerator (sampleMethod true true)
      defaultParams rfl).2.2.2.1 rfl rfl]
    decide

/-- C7. With async iterators, a server-streaming method gets the line
`M: (r:I) => AsyncIterator<O>;` when it is not client streaming and
`M: (r:AsyncIterator<I>) => AsyncIterator<O>;` when it is; what is written is none of
the callback or pull-function lines of the same method. -/
theorem generateServiceMethod_async_server_streaming (g : Generator) (m : MethodDescriptor)
    (params : Parameters) (hasync : params.AsyncIterators = true)
    (hs : m.isServerStreaming = true) :
    (m.isClientStreaming = false →
      generateServiceMethod g m params = { g with Buffer := g.Buffer ++ g.indent
        ++ (m.name ++ ": (r:" ++ m.inputType.name ++ ") => AsyncIterator<" ++ m.outputType.name
          ++ ">;")
        ++ "\n" })
    ∧ (m.isClientStreaming = true →
      generateServiceMethod g m params = { g with Buffer := g.Buffer ++ g.indent
        ++ (m.name ++ ": (r:AsyncIterator<" ++ m.inputType.name ++ ">) => AsyncIterator<"
          ++ m.outputType.name ++ ">;")
        ++ "\n" })
    ∧ generateServiceMethod g m params ≠ g.W (m.name ++ ": (r:" ++ m.inputType.name
        ++ ", cb:(a:\x7bvalue: " ++ m.outputType.name ++ ", done: boolean\x7d) => void) => void;")
    ∧ generateServiceMethod g m params ≠ g.W (m.name ++ ": (r:() => \x7bvalue: "
        ++ m.inputType.name ++ ", done: boolean\x7d) => " ++ m.outputType.name ++ ";")
    ∧ generateServiceMethod g m params ≠ g.W (m.name ++ ": (r:() => \x7bvalue: "
        ++ m.inputType.name ++ ", done: boolean\x7d, cb:(a:\x7bvalue: " ++ m.outputType.name
        ++ ", done: boolean\x7d) => void) => void;") := by
  refine ⟨?_, ?_, ?_, ?_, ?_⟩
  · intro hc
    simp [generateServiceMethod, Generator.W, Generator.w, hasync, hc, hs, String.ext_iff,
      String.data_append]
  · intro hc
    simp [generateServiceMethod, Generator.W, Generator.w, hasync, hc, hs, String.ext_iff,
      String.data_append]
  all_goals
    intro h
    have h1 := congrArg (fun x => x.Buffer.data.length) h
    have h2 := congrArg (fun x => x.Buffer.data) h
    cases hc : m.isClientStreaming
    · simp [generateServiceMethod, Generator.W, Generator.w, hasync, hc, hs,
        String.data_append] at h1 h2
      try omega
    · simp [generateServiceMethod, Generator.W, Generator.w, hasync, hc, hs,
        String.data_append] at h1 h2
      try omega

theorem generateServiceMethod_async_server_streaming_witness :
    asyncParams.AsyncIterators = true
    ∧ (generateServiceMethod emptyGenerator (sampleMethod false true) asyncParams).Buffer
        = "M: (r:In) => AsyncIterator<Out>;\n"
    ∧ (generateServiceMethod emptyGenerator (sampleMethod true true) asyncParams).Buffer
        = "M: (r:AsyncIterator<In>) => AsyncIterator<Out>;\n" := by
  refine ⟨rfl, ?_, ?_⟩
  · rw [(generateServiceMethod_async_server_streaming emptyGenerator (sampleMethod false true)
      asyncParams rfl rfl).1 rfl]
    decide
  · rw [(generateServiceMethod_async_server_streaming emptyGenerator (sampleMethod true true)
      asyncParams rfl rfl).2.1 rfl]
    decide

/-- C8 (counterexample). With async iterators, the client-streaming method `M` from
`In` to `Out` that is not server streaming gets the request type `AsyncIterator<In>`:
the line is `M: (r:AsyncIterator<In>) => Out;`, not the plain `M: (r:In) => Out;`. -/
theorem generateServiceMethod_async_client_streaming_not_plain :
    asyncParams.AsyncIterators = true
    ∧ (sampleMethod true false).isServerStreaming = false
    ∧ (generateServiceMethod emptyGenerator (sampleMethod true false) asyncParams).Buffer
        = "M: (r:AsyncIterator<In>) => Out;\n"
    ∧ (generateServiceMethod emptyGenerator (sampleMethod true false) asyncParams).Buffer
        ≠ "M: (r:In) => Out;\n"
    ∧ ¬ (∀ (g : Generator) (m : MethodDescriptor) (params : Parameters),
          params.AsyncIterators = true → m.isServerStreaming = false →
          generateServiceMethod g m params
            = g.W (m.name ++ ": (r:" ++ m.inputType.name ++ ") => " ++ m.outputType.name ++ ";")) := by
  refine ⟨rfl, rfl, by decide, by decide, ?_⟩
  intro h
  have h1 := h emptyGenerator (sampleMethod true false) asyncParams rfl rfl
  have h2 := congrArg (fun x => x.Buffer) h1
  revert h2
  decide

/-- C8 (amended). With async iterators, a method that is not server streaming gets
the line `M: (r:I) => O;` when it is not client streaming and
`M: (r:AsyncIterator<I>) => O;` when it is client streaming: the result type is the
unwrapped `O`, the request type is wrapped exactly for a client-streaming method. -/
theorem generateServiceMethod_async_not_server_streaming (g : Generator)
    (m : MethodDescriptor) (params : Parameters) (hasync : params.AsyncIterators = true)
    (hs : m.isServerStreaming = false) :
    (m.isClientStreaming = false →
      generateServiceMethod g m params = { g with Buffer := g.Buffer ++ g.indent
        ++ (m.name ++ ": (r:" ++ m.inputType.name ++ ") => " ++ m.outputType.name ++ ";")
        ++ "\n" })
    ∧ (m.isClientStreaming = true →
      generateServiceMethod g m params = { g with Buffer := g.Buffer ++ g.indent
        ++ (m.name ++ ": (r:AsyncIterator<" ++ m.inputType.name ++ ">) => "
          ++ m.outputType.name ++ ";")
        ++ "\n" }) := by
  refine ⟨?_, ?_⟩
  · intro hc
    simp [generateServiceMethod, Generator.W, Generator.w, hasync, hc, hs, String.ext_iff,
      String.data_append]
  · intro hc
    simp [generateServiceMethod, Generator.W, Generator.w, hasync, hc, hs, String.ext_iff,
      String.data_append]

theorem generateServiceMethod_async_not_server_streaming_witness :
    asyncParams.AsyncIterators = true
    ∧ (generateServiceMethod nestedGenerator (sampleMethod false false) asyncParams).Buffer
        = "// header\n    M: (r:In) => Out;\n"
    ∧ (generateServiceMethod nestedGenerator (sampleMethod true false) asyncParams).Buffer
        = "// header\n    M: (r:AsyncIterator<In>) => Out;\n" := by
  refine ⟨rfl, ?_, ?_⟩
  · rw [(generateServiceMethod_async_not_server_streaming nestedGenerator
      (sampleMethod false false) asyncParams rfl rfl).1 rfl]
    decide
  · rw [(generateServiceMethod_async_not_server_streaming nestedGenerator
      (sampleMethod true false) asyncParams rfl rfl).2 rfl]
    decide

/-- C9. For a method that streams in neither direction, and from every generator
state (buffer and indentation), `generateServiceMethod` with async iterators ends in
the same state as without: both append the indentation, `M: (r:I) => O;` and a
newline. -/
theorem generateServiceMethod_unary_async_irrelevant (g : Generator) (m : MethodDescriptor)
    (p1 p2 : Parameters) (hc : m.isClientStreaming = false) (hs : m.isServerStreaming = false)
    (h1 : p1.AsyncIterators = true) (h2 : p2.AsyncIterators = false) :
    generateServiceMethod g m p1 = generateServiceMethod g m p2
    ∧ (generateServiceMethod g m p1).Buffer = g.Buffer ++ (g.indent ++ m.name ++ ": (r:"
        ++ m.inputType.name ++ ") => " ++ m.outputType.name ++ ";\n")
    ∧ (generateServiceMethod g m p2).Buffer = g.Buffer ++ (g.indent ++ m.name ++ ": (r:"
        ++ m.inputType.name ++ ") => " ++ m.outputType.name ++ ";\n") := by
  refine ⟨?_, ?_, ?_⟩
  · simp [generateServiceMethod, h1, h2, hc, hs]
  · simp [generateServiceMethod, Generator.W, Generator.w, h1, hc, hs, String.append_assoc]
  · simp [generateServiceMethod, Generator.W, Generator.w, h2, hc, hs, String.append_assoc]

theorem generateServiceMethod_unary_async_irrelevant_witness :
    generateServiceMethod nestedGenerator (sampleMethod false false) asyncParams
      = generateServiceMethod nestedGenerator (sampleMethod false false) defaultParams :=
  (generateServiceMethod_unary_async_irrelevant nestedGenerator (sampleMethod false false)
    asyncParams defaultParams rfl rfl rfl rfl).1

/-! ## Enum declarations -/

theorem foldl_append_eq_append_join (l : List String) (acc : String) :
    l.foldl (fun r s => r ++ s) acc = acc ++ String.join l := by
  induction l generalizing acc with
  | nil => simp [String.join]
  | cons a l ih =>
    simp only [List.foldl_cons, String.join]
    rw [ih (acc ++ a), ih ("" ++ a)]
    simp [String.append_assoc]

theorem join_nil : String.join [] = "" := rfl

theorem join_cons (a : String) (l : List String) :
    String.join (a :: l) = a ++ String.join l := by
  simp only [String.join, List.foldl_cons]
  rw [foldl_append_eq_append_join l ("" ++ a)]
  simp [String.join]

theorem join_append (l1 l2 : List String) :
    String.join (l1 ++ l2) = String.join l1 ++ String.join l2 := by
  induction l1 with
  | nil => simp [String.join]
  | cons a l ih => simp [join_cons, ih, String.append_assoc]

/-- Writing one line per element of a list appends the lines, each with the
indentation before and a newline after, and leaves the indentation as it was. -/
theorem foldl_W_eq {α : Type} (line : α → String) (vs : List α) (g : Generator) :
    vs.foldl (fun g v => g.W (line v)) g
      = { g with Buffer := g.Buffer
            ++ String.join (vs.map (fun v => g.indent ++ line v ++ "\n")) } := by
  induction vs generalizing g with
  | nil => simp [String.join]
  | cons v vs ih =>
    simp only [List.foldl_cons, List.map_cons]
    rw [ih (g.W (line v)), join_cons]
    simp [Generator.W, Generator.w, String.append_assoc]

/-- C10. `generateEnum` appends m + 2 lines for an enum with m values, each made of
the indentation, the text and a newline: `export enum E {`, then per value in
declaration order four spaces and `n = "n",` (enumsAsInt false) or `n = k,`
(enumsAsInt true; `k` in decimal, with a minus sign when negative), then `}`. The
rest of the generator state, the indentation included, is unchanged. -/
theorem generateEnum_lines (g : Generator) (e : EnumDescriptor) (params : Parameters) :
    (params.EnumsAsInt = false →
      generateEnum g e params =
        { g with
          Buffer := g.Buffer ++ String.join
            ((["export enum " ++ e.name ++ " \x7b"]
              ++ e.values.map (fun v => "    " ++ v.name ++ " = \"" ++ v.name ++ "\",")
              ++ ["\x7d"]).map (fun l => g.indent ++ l ++ "\n")) })
    ∧ (params.EnumsAsInt = true →
      generateEnum g e params =
        { g with
          Buffer := g.Buffer ++ String.join
            ((["export enum " ++ e.name ++ " \x7b"]
              ++ e.values.map (fun v => "    " ++ v.name ++ " = " ++ sprintInt v.number ++ ",")
              ++ ["\x7d"]).map (fun l => g.indent ++ l ++ "\n")) })
    ∧ (["export enum " ++ e.name ++ " \x7b"]
          ++ e.values.map (fun v => "    " ++ v.name ++ " = \"" ++ v.name ++ "\",")
          ++ ["\x7d"]).length = e.values.length + 2
    ∧ (["export enum " ++ e.name ++ " \x7b"]
          ++ e.values.map (fun v => "    " ++ v.name ++ " = " ++ sprintInt v.number ++ ",")
          ++ ["\x7d"]).length = e.values.length + 2
    ∧ (∀ k : Int, 0 ≤ k → sprintInt k = Nat.repr k.toNat)
    ∧ (∀ k : Int, k < 0 → sprintInt k = "-" ++ Nat.repr (-k).toNat) := by
  refine ⟨?_, ?_, ?_, ?_, ?_, ?_⟩
  · intro h
    unfold generateEnum
    simp only [h, Bool.false_eq_true, if_false]
    rw [foldl_W_eq (fun v : EnumValueDescriptor => "    " ++ v.name ++ " = \"" ++ v.name ++ "\",")]
    simp [Generator.W, Generator.w, join_cons, join_append, join_nil, List.map_append,
      String.append_assoc, Function.comp_def]
  · intro h
    unfold generateEnum
    simp only [h, if_true]
    rw [foldl_W_eq (fun v : EnumValueDescriptor => "    " ++ v.name ++ " = " ++ sprintInt v.number ++ ",")]
    simp [Generator.W, Generator.w, join_cons, join_append, join_nil, List.map_append,
      String.append_assoc, Function.comp_def]
  · simp
  · simp
  · intro k hk
    unfold sprintInt
    rw [if_neg (by omega)]
    congr 1
    omega
  · intro k hk
    unfold sprintInt
    rw [if_pos hk]
    congr 2
    omega

theorem generateEnum_lines_witness :
    (generateEnum emptyGenerator enumLocal defaultParams).Buffer
        = "export enum Color \x7b\n    RED = \"RED\",\n    GREEN = \"GREEN\",\n\x7d\n"
    ∧ (generateEnum emptyGenerator enumLocal intEnumParams).Buffer
        = "export enum Color \x7b\n    RED = 0,\n    GREEN = 1,\n\x7d\n"
    ∧ (generateEnum nestedGenerator enumSigned intEnumParams).Buffer
        = "// header\n    export enum Sign \x7b\n        NEG = -1,\n        BIG = 2147483647,\n    \x7d\n" := by
  refine ⟨?_, ?_, ?_⟩
  · rw [(generateEnum_lines emptyGenerator enumLocal defaultParams).1 rfl]
    decide
  · rw [(generateEnum_lines emptyGenerator enumLocal intEnumParams).2.1 rfl]
    decide
  · rw [(generateEnum_lines nestedGenerator enumSigned intEnumParams).2.1 rfl]
    decide

set_option maxRecDepth 100000

/-! ## Emitters append text -/

theorem W_eq (g : Generator) (s : String) :
    g.W s = { g with Buffer := g.Buffer ++ (g.indent ++ s ++ "\n") } := by
  simp [Generator.W, Generator.w, String.append_assoc]

/-- A loop of emitters that each append a text depending on the indentation only
appends the texts in order. -/
theorem foldl_emit_eq {α : Type} (F : Generator → α → Generator) (T : String → α → String)
    (h : ∀ g x, F g x = { g with Buffer := g.Buffer ++ T g.indent x }) (xs : List α)
    (g : Generator) :
    xs.foldl F g = { g with Buffer := g.Buffer ++ String.join (xs.map (T g.indent)) } := by
  induction xs generalizing g with
  | nil => simp [join_nil]
  | cons x xs ih =>
    simp only [List.foldl_cons, List.map_cons]
    rw [h g x, ih, join_cons]
    simp [String.append_assoc]

/-- The same for emitters that may fail but do not on the elements of the list. -/
theorem foldlM_emit_eq {α : Type} (F : Generator → α → Option Generator)
    (T : String → α → String) (xs : List α)
    (h : ∀ g, ∀ x ∈ xs, F g x = some { g with Buffer := g.Buffer ++ T g.indent x })
    (g : Generator) :
    xs.foldlM F g = some { g with Buffer := g.Buffer ++ String.join (xs.map (T g.indent)) } := by
  induction xs generalizing g with
  | nil => simp [join_nil]
  | cons x xs ih =>
    simp only [List.foldlM_cons, List.map_cons]
    rw [h g x (List.mem_cons_self x xs)]
    simp only [Option.some_bind, Option.bind_eq_bind]
    rw [ih (fun g y hy => h g y (List.mem_cons_of_mem x hy)), join_cons]
    simp [String.append_assoc]

theorem generateEnum_eq (g : Generator) (e : EnumDescriptor) (params : Parameters) :
    generateEnum g e params = { g with Buffer := g.Buffer ++ enumDecl g.indent params e } := by
  unfold generateEnum enumDecl
  have hfun : (fun (g : Generator) (v : EnumValueDescriptor) =>
        if params.EnumsAsInt then
          g.W ("    " ++ v.name ++ " = " ++ sprintInt v.number ++ ",")
        else
          g.W ("    " ++ v.name ++ " = \"" ++ v.name ++ "\","))
      = (fun g v => g.W (if params.EnumsAsInt then
            "    " ++ v.name ++ " = " ++ sprintInt v.number ++ ","
          else "    " ++ v.name ++ " = \"" ++ v.name ++ "\",")) := by
    funext g v
    split <;> rfl
  simp only [hfun]
  rw [foldl_W_eq]
  simp [Generator.W, Generator.w, join_cons, join_append, join_nil, List.map_append,
    String.append_assoc, Function.comp_def]

theorem generateEnums_eq (g : Generator) (es : List EnumDescriptor) (params : Parameters) :
    generateEnums g es params
      = { g with Buffer := g.Buffer ++ String.join (es.map (enumDecl g.indent params)) } := by
  unfold generateEnums
  exact foldl_emit_eq _ (fun ind e => enumDecl ind params e)
    (fun g e => generateEnum_eq g e params) es g

theorem generateServiceMethod_eq (g : Generator) (m : MethodDescriptor)
    (params : Parameters) :
    generateServiceMethod g m params
      = { g with Buffer := g.Buffer ++ (g.indent ++ methodLine params m) } := by
  unfold methodLine generateServiceMethod
  cases params.AsyncIterators <;> cases m.isServerStreaming <;> cases m.isClientStreaming <;>
    simp [Generator.W, Generator.w, String.append_assoc]

theorem decIndent_incIndent (g : Generator) : g.incIndent.decIndent = some g := by
  unfold Generator.decIndent Generator.incIndent
  have h : ¬ ((g.indent ++ indent).length < indent.length) := by
    rw [String.length_append]
    omega
  simp only [h, if_false]
  have h2 : (g.indent ++ indent).data.take ((g.indent ++ indent).length - indent.length)
      = g.indent.data := by
    rw [String.length_append, Nat.add_sub_cancel, String.data_append]
    exact List.take_left' rfl
  rw [h2]

theorem generateService_eq (g : Generator) (s : ServiceDescriptor) (params : Parameters) :
    generateService g s params
      = some { g with Buffer := g.Buffer ++ serviceDecl g.indent params s } := by
  unfold generateService generateServiceMethods
  simp only []
  rw [foldl_emit_eq _ (fun ind m => ind ++ methodLine params m)
    (fun g m => generateServiceMethod_eq g m params)]
  have h := decIndent_incIndent
    { g with Buffer := (g.W ("export interface " ++ s.name ++ "Service \x7b")).Buffer
        ++ String.join (s.methods.map (fun m => (g.indent ++ indent) ++ methodLine params m)) }
  have e : ({ (g.W ("export interface " ++ s.name ++ "Service \x7b")).incIndent with
      Buffer := (g.W ("export interface " ++ s.name ++ "Service \x7b")).incIndent.Buffer
        ++ String.join (s.methods.map
          (fun m => (g.W ("export interface " ++ s.name ++ "Service \x7b")).incIndent.indent
            ++ methodLine params m)) } : Generator)
      = Generator.incIndent { g with
          Buffer := (g.W ("export interface " ++ s.name ++ "Service \x7b")).Buffer
            ++ String.join (s.methods.map (fun m => (g.indent ++ indent) ++ methodLine params m)) } := by
    simp [Generator.incIndent, Generator.W, Generator.w]
  rw [e, h]
  simp [serviceDecl, Generator.W, Generator.w, String.append_assoc]

theorem generateMessage_eq (g : Generator) (m : MessageDescriptor) (params : Parameters)
    (ty : FieldDescriptor → String) (hty : ∀ f ∈ m.fields, fieldType f = some (ty f)) :
    generateMessage g m params
      = some { g with Buffer := g.Buffer
          ++ (String.join (m.nestedEnumTypes.map (enumDecl g.indent params))
            ++ interfaceDecl g.indent ty m) } := by
  unfold generateMessage
  simp only []
  rw [foldl_emit_eq _ (fun ind e => enumDecl ind params e)
    (fun g e => generateEnum_eq g e params)]
  rw [foldlM_emit_eq _ (fun ind f => ind ++ (indent ++ f.name ++ "?: " ++ ty f ++ ";") ++ "\n")
    m.fields]
  · simp [interfaceDecl, Generator.W, Generator.w, join_cons, join_append, join_nil,
      List.map_append, String.append_assoc, Function.comp_def, indent]
  · intro g f hf
    rw [hty f hf]
    simp [Generator.W, Generator.w, String.append_assoc]

theorem generateMessages_eq (g : Generator) (ms : List MessageDescriptor)
    (params : Parameters) (ty : FieldDescriptor → String)
    (hty : ∀ m ∈ ms, ∀ f ∈ m.fields, fieldType f = some (ty f)) :
    generateMessages g ms params
      = some { g with Buffer := g.Buffer ++ String.join (ms.map (fun m =>
          String.join (m.nestedEnumTypes.map (enumDecl g.indent params))
            ++ interfaceDecl g.indent ty m)) } := by
  unfold generateMessages
  exact foldlM_emit_eq _
    (fun ind m => String.join (m.nestedEnumTypes.map (enumDecl ind params))
      ++ interfaceDecl ind ty m)
    ms (fun g m hm => generateMessage_eq g m params ty (hty m hm)) g

theorem generateServices_eq (g : Generator) (ss : List ServiceDescriptor)
    (params : Parameters) :
    generateServices g ss params
      = some { g with Buffer := g.Buffer
          ++ String.join (ss.map (serviceDecl g.indent params)) } := by
  unfold generateServices
  exact foldlM_emit_eq _ (fun ind s => serviceDecl ind params s) ss
    (fun g s _ => generateService_eq g s params) g

theorem generate_eq (g : Generator) (f : FileDescriptor) (params : Parameters)
    (ty : FieldDescriptor → String)
    (hty : ∀ m ∈ f.messageTypes, ∀ fd ∈ m.fields, fieldType fd = some (ty fd)) :
    generate g f params
      = some { g with Buffer := g.Buffer ++ fileDecls g.indent params ty f } := by
  unfold generate
  simp only []
  rw [generateEnums_eq, generateMessages_eq _ _ _ ty hty]
  simp only []
  rw [generateServices_eq]
  simp [fileDecls, String.append_assoc]

/-- A type for every field of a typed message: the one `fieldType` returns. -/
theorem typed_fieldType (m : MessageDescriptor) (h : m.typed) :
    ∀ f ∈ m.fields, fieldType f = some ((fieldType f).getD "") := by
  intro f hf
  have h1 := h f hf
  cases hx : fieldType f with
  | none => simp [hx] at h1
  | some t => rfl

/-! ## Message and service declarations -/

/-- C11. For a message without nested enums, all of whose fields have a type,
`generateMessage` appends the line `export interface M {`, then one line
`  name?: type;` per field in declaration order (the marker `?` on every field),
then the line `}`, each after the current indentation, and then an empty line. -/
theorem generateMessage_interface (g : Generator) (m : MessageDescriptor)
    (params : Parameters) (ty : FieldDescriptor → String)
    (hnested : m.nestedEnumTypes = [])
    (hty : ∀ f ∈ m.fields, fieldType f = some (ty f)) :
    generateMessage g m params
      = some { g with
          Buffer := g.Buffer
            ++ String.join
              ((["export interface " ++ m.name ++ " \x7b"]
                ++ m.fields.map (fun f => "  " ++ f.name ++ "?: " ++ ty f ++ ";")
                ++ ["\x7d"]).map (fun l => g.indent ++ l ++ "\n"))
            ++ "\n" }
    ∧ (["export interface " ++ m.name ++ " \x7b"]
        ++ m.fields.map (fun f => "  " ++ f.name ++ "?: " ++ ty f ++ ";")
        ++ ["\x7d"]).length = m.fields.length + 2 := by
  refine ⟨?_, by simp⟩
  rw [generateMessage_eq g m params ty hty, hnested]
  simp [interfaceDecl, join_nil, String.append_assoc]

theorem generateMessage_interface_witness :
    personMessage.nestedEnumTypes = []
    ∧ (generateMessage emptyGenerator personMessage defaultParams).map (fun g => g.Buffer)
      = some "export interface Person \x7b\n  name?: string;\n\x7d\n\n" := by
  refine ⟨rfl, ?_⟩
  rw [(generateMessage_interface emptyGenerator personMessage defaultParams
    (fun _ => "string") rfl (by decide)).1]
  decide

/-- C12. `generateService` appends the line `export interface SService {` at the
current indentation, then for each method in declaration order the line of
`generateServiceMethod` one indentation unit (two spaces) deeper, then the line `}`
at the indentation of the opening line; it never fails and leaves the indentation as
it was. -/
theorem generateService_declaration (g : Generator) (s : ServiceDescriptor)
    (params : Parameters) :
    generateService g s params
      = some { g with
          Buffer := g.Buffer
            ++ (g.indent ++ ("export interface " ++ s.name ++ "Service \x7b") ++ "\n")
            ++ String.join (s.methods.map (fun m => g.indent ++ "  " ++ methodLine params m))
            ++ (g.indent ++ "\x7d" ++ "\n") }
    ∧ (s.methods.map (fun m => g.indent ++ "  " ++ methodLine params m)).length
        = s.methods.length
    ∧ (∀ m ∈ s.methods, ∀ g2 : Generator,
        generateServiceMethod g2 m params
          = { g2 with Buffer := g2.Buffer ++ (g2.indent ++ methodLine params m) }) := by
  refine ⟨?_, by simp, fun m _ g2 => generateServiceMethod_eq g2 m params⟩
  rw [generateService_eq]
  simp [serviceDecl, indent, String.append_assoc]

theorem generateService_declaration_witness :
    (generateService nestedGenerator sampleService defaultParams).map
        (fun g => (g.Buffer, g.indent))
      = some ("// header\n    export interface GreeterService \x7b\n      M: (r:In) => Out;\n      M: (r:() => \x7bvalue: In, done: boolean\x7d, cb:(a:\x7bvalue: Out, done: boolean\x7d) => void) => void;\n    \x7d\n",
        "    ") := by
  rw [(generateService_declaration nestedGenerator sampleService defaultParams).1]
  decide

/-! ## Order of the declarations of a file -/

/-- C15. For a file whose message fields all have a type, `generate` appends, in
this order, the declarations of the top-level enums, then for each top-level message
the declarations of its nested enums followed at once by its own `export interface`
block, then the declarations of the services, each list in schema order; these
declarations are the texts `generateEnum`, `generateMessage` and `generateService`
append. -/
theorem generate_order (g : Generator) (f : FileDescriptor) (params : Parameters)
    (ty : FieldDescriptor → String)
    (hty : ∀ m ∈ f.messageTypes, ∀ fd ∈ m.fields, fieldType fd = some (ty fd)) :
    generate g f params
      = some { g with
          Buffer := g.Buffer
            ++ String.join (f.enumTypes.map (enumDecl g.indent params))
            ++ String.join (f.messageTypes.map (fun m =>
                String.join (m.nestedEnumTypes.map (enumDecl g.indent params))
                  ++ interfaceDecl g.indent ty m))
            ++ String.join (f.services.map (serviceDecl g.indent params)) }
    ∧ (∀ (g2 : Generator) (e : EnumDescriptor),
        generateEnum g2 e params
          = { g2 with Buffer := g2.Buffer ++ enumDecl g2.indent params e })
    ∧ (∀ (g2 : Generator), ∀ m ∈ f.messageTypes,
        generateMessage g2 m params
          = some { g2 with
              Buffer := g2.Buffer
                ++ (String.join (m.nestedEnumTypes.map (enumDecl g2.indent params))
                  ++ interfaceDecl g2.indent ty m) })
    ∧ (∀ (g2 : Generator) (s : ServiceDescriptor),
        generateService g2 s params
          = some { g2 with Buffer := g2.Buffer ++ serviceDecl g2.indent params s }) := by
  refine ⟨?_, fun g2 e => generateEnum_eq g2 e params,
    fun g2 m hm => generateMessage_eq g2 m params ty (hty m hm),
    fun g2 s => generateService_eq g2 s params⟩
  rw [generate_eq g f params ty hty]
  simp [fileDecls, String.append_assoc]

theorem generate_order_witness :
    (generate emptyGenerator mainFile defaultParams).map (fun g => g.Buffer)
      = some ("export enum Sign \x7b\n    NEG = \"NEG\",\n    BIG = \"BIG\",\n\x7d\n"
        ++ "export enum Color \x7b\n    RED = \"RED\",\n    GREEN = \"GREEN\",\n\x7d\n"
        ++ "export interface M \x7b\n  tags?: Array<string>;\n\x7d\n\n"
        ++ "export interface GreeterService \x7b\n  M: (r:In) => Out;\n"
        ++ "  M: (r:() => \x7bvalue: In, done: boolean\x7d, cb:(a:\x7bvalue: Out, done: boolean\x7d) => void) => void;\n\x7d\n") := by
  rw [(generate_order emptyGenerator mainFile defaultParams (fun _ => "Array<string>")
    (by decide)).1]
  decide

/-! ## Nested messages -/

/-- C16 (counterexample). The file `main.proto` has the top-level message `M` with the
nested message `N` and the nested enum `Color`: the text `generate` emits has the
declaration `export enum Color {` but no `export interface N {`. -/
theorem generate_nested_message_not_emitted :
    mainFile.messageTypes.map (fun m => (m.name, m.nestedMessageTypes.map (fun n => n.name)))
      = [("M", ["N"])]
    ∧ (generate emptyGenerator mainFile defaultParams).map (fun g => g.Buffer)
      = some ("export enum Sign \x7b\n    NEG = \"NEG\",\n    BIG = \"BIG\",\n\x7d\n"
        ++ "export enum Color \x7b\n    RED = \"RED\",\n    GREEN = \"GREEN\",\n\x7d\n"
        ++ "export interface M \x7b\n  tags?: Array<string>;\n\x7d\n\n"
        ++ "export interface GreeterService \x7b\n  M: (r:In) => Out;\n"
        ++ "  M: (r:() => \x7bvalue: In, done: boolean\x7d, cb:(a:\x7bvalue: Out, done: boolean\x7d) => void) => void;\n\x7d\n")
    ∧ ¬ ("export interface N \x7b".data <:+:
        (((generate emptyGenerator mainFile defaultParams).map (fun g => g.Buffer)).getD "").data)
    ∧ ("export enum Color \x7b".data <:+:
        (((generate emptyGenerator mainFile defaultParams).map (fun g => g.Buffer)).getD "").data) := by
  refine ⟨by decide, by decide, by decide, by decide⟩

theorem generateMessage_withoutNestedMessages (g : Generator) (m : MessageDescriptor)
    (params : Parameters) :
    generateMessage g m.withoutNestedMessages params = generateMessage g m params := by
  cases m
  rfl

/-- C16 (amended). Nested message types get no declaration: the text `generate`
emits for a file is the text it emits for the file in which every top-level message
has its nested message types removed, and likewise for `generateMessage`. -/
theorem generate_ignores_nested_messages (g : Generator) (f : FileDescriptor)
    (params : Parameters) :
    generate g f params
      = generate g
          { f with messageTypes := f.messageTypes.map MessageDescriptor.withoutNestedMessages }
          params
    ∧ (∀ (g2 : Generator) (m : MessageDescriptor),
        generateMessage g2 m params = generateMessage g2 m.withoutNestedMessages params) := by
  refine ⟨?_, fun g2 m => (generateMessage_withoutNestedMessages g2 m params).symm⟩
  have h : ∀ (ms : List MessageDescriptor) (g0 : Generator),
      generateMessages g0 (ms.map MessageDescriptor.withoutNestedMessages) params
        = generateMessages g0 ms params := by
    intro ms
    induction ms with
    | nil => intro g0; rfl
    | cons m ms ih =>
      intro g0
      simp only [generateMessages, List.map_cons, List.foldlM_cons,
        generateMessage_withoutNestedMessages]
      cases generateMessage g0 m params with
      | none => rfl
      | some g1 => exact ih g1
  unfold generate
  simp only [h]

/-! ## Method signatures and qualified names -/

/-- C20. The state after `generateServiceMethod` is the same for two methods with the
same name, the same bare names of the input and output types and the same streaming
flags, under two configurations with the same `AsyncIterators`: packages, files and
fully qualified names are not read. For a method whose input type is declared in
another package than a field of that type, the field gets the fully qualified name
from `rawFieldType` while the method line is that of the bare name. -/
theorem generateServiceMethod_bare_names (g : Generator) (m1 m2 : MethodDescriptor)
    (p1 p2 : Parameters) (hname : m1.name = m2.name)
    (hin : m1.inputType.name = m2.inputType.name)
    (hout : m1.outputType.name = m2.outputType.name)
    (hcs : m1.isClientStreaming = m2.isClientStreaming)
    (hss : m1.isServerStreaming = m2.isServerStreaming)
    (hasync : p1.AsyncIterators = p2.AsyncIterators) :
    generateServiceMethod g m1 p1 = generateServiceMethod g m2 p2
    ∧ (∀ f : FieldDescriptor, f.type = TYPE_MESSAGE → f.messageType = some m1.inputType →
        m1.inputType.file.package ≠ f.file.package →
        rawFieldType f = some m1.inputType.fullyQualifiedName
        ∧ generateServiceMethod g m1 p1
          = generateServiceMethod g
              { m1 with inputType :=
                { name := m1.inputType.name, fullyQualifiedName := m1.inputType.name,
                  file := f.file } } p1) := by
  refine ⟨?_, ?_⟩
  · unfold generateServiceMethod
    simp only [hname, hin, hout, hcs, hss, hasync]
  · intro f hkind href hpkg
    refine ⟨?_, rfl⟩
    unfold rawFieldType
    simp [hkind, href, hpkg, TYPE_DOUBLE, TYPE_FLOAT, TYPE_INT64, TYPE_UINT64, TYPE_INT32,
      TYPE_FIXED64, TYPE_FIXED32, TYPE_UINT32, TYPE_SFIXED32, TYPE_SFIXED64, TYPE_SINT32,
      TYPE_SINT64, TYPE_BOOL, TYPE_STRING, TYPE_BYTES, TYPE_ENUM, TYPE_MESSAGE]

theorem generateServiceMethod_bare_names_witness :
    (generateServiceMethod emptyGenerator foreignMethod defaultParams).Buffer
      = "Get: (r:Item) => Out;\n"
    ∧ rawFieldType (messageField msgForeign) = some "other.Item"
    ∧ generateServiceMethod emptyGenerator foreignMethod asyncParams
      = generateServiceMethod emptyGenerator
          { foreignMethod with inputType := msgLocal } asyncParams := by
  have h := generateServiceMethod_bare_names emptyGenerator foreignMethod
    { foreignMethod with inputType := msgLocal } asyncParams asyncParams rfl rfl rfl rfl rfl rfl
  exact ⟨by decide, (h.2 (messageField msgForeign) rfl rfl (by decide)).1, h.1⟩

/-! ## The loop of `filepath.Clean` ends within its fuel -/

theorem length_dropWhile_le {α : Type} (p : α → Bool) (l : List α) :
    (l.dropWhile p).length ≤ l.length := by
  induction l with
  | nil => simp
  | cons a l ih =>
    simp only [List.dropWhile_cons]
    split
    · exact Nat.le_succ_of_le ih
    · exact Nat.le_refl _

/-- Every amount of fuel above the length of the path gives the same result: the
loop reads at least one character per iteration, so `filepathClean` never stops for
lack of fuel. -/
theorem cleanLoop_fuel (fuel1 : Nat) :
    ∀ (fuel2 : Nat) (path : List Char) (rooted : Bool) (out : List Char) (dotdot : Nat),
      path.length < fuel1 → path.length < fuel2 →
      cleanLoop fuel1 path rooted out dotdot = cleanLoop fuel2 path rooted out dotdot := by
  induction fuel1 with
  | zero => intro fuel2 path rooted out dotdot h1; omega
  | succ k ih =>
    intro fuel2 path rooted out dotdot h1 h2
    cases fuel2 with
    | zero => omega
    | succ j =>
      cases path with
      | nil => simp [cleanLoop]
      | cons c rest =>
        have hrest : rest.length < k ∧ rest.length < j := by
          simp only [List.length_cons] at h1 h2
          omega
        have htail : rest.tail.length < k ∧ rest.tail.length < j := by
          have := List.length_tail rest
          omega
        have hdrop : isPathSeparator c = false →
            ((c :: rest).dropWhile (fun c => !isPathSeparator c)).length ≤ rest.length := by
          intro hc
          have hc2 : (!isPathSeparator c) = true := by simp [hc]
          rw [List.dropWhile_cons, if_pos hc2]
          exact length_dropWhile_le _ rest
        simp only [cleanLoop]
        split_ifs with hsep
        all_goals first
          | exact ih j rest rooted _ _ hrest.1 hrest.2
          | exact ih j rest.tail rooted _ _ htail.1 htail.2
          | exact ih j _ rooted _ _
              (Nat.lt_of_le_of_lt (hdrop (by simpa using hsep)) hrest.1)
              (Nat.lt_of_le_of_lt (hdrop (by simpa using hsep)) hrest.2)

/-! ## `filepath.Dir` and `filepath.Base` on ordinary paths -/

theorem cleanLoop_nil (fuel : Nat) (rooted : Bool) (out : List Char) (dotdot : Nat) :
    cleanLoop fuel [] rooted out dotdot = out := by
  cases fuel <;> simp [cleanLoop]

theorem cleanLoop_separator (fuel : Nat) (rooted : Bool) (out : List Char) (dotdot : Nat) :
    cleanLoop fuel ['/'] rooted out dotdot = out := by
  cases fuel with
  | zero => simp [cleanLoop]
  | succ k => simp [cleanLoop, isPathSeparator, cleanLoop_nil]

theorem takeWhile_dropWhile_component (c tail : List Char) (hsep : '/' ∉ c)
    (ht : tail = [] ∨ ∃ t, tail = '/' :: t) :
    (c ++ tail).takeWhile (fun x => !isPathSeparator x) = c
    ∧ (c ++ tail).dropWhile (fun x => !isPathSeparator x) = tail := by
  induction c with
  | nil =>
    rcases ht with h | ⟨t, h⟩ <;> subst h <;> simp [isPathSeparator]
  | cons a c ih =>
    have ha : a ≠ '/' := fun h => hsep (by simp [h])
    have hc : '/' ∉ c := fun h => hsep (List.mem_cons_of_mem a h)
    obtain ⟨h1, h2⟩ := ih hc
    have hp : (!isPathSeparator a) = true := by simp [isPathSeparator, ha]
    constructor
    · rw [List.cons_append, List.takeWhile_cons, if_pos hp, h1]
    · rw [List.cons_append, List.dropWhile_cons, if_pos hp, h2]

/-- One iteration of the loop of `Clean` on an ordinary element: the element is
copied to the output, after a separator when the output needs one. -/
theorem cleanLoop_component (fuel : Nat) (c tail : List Char) (rooted : Bool)
    (out : List Char) (dotdot : Nat) (hne : c ≠ []) (hsep : '/' ∉ c) (hdot : c ≠ ['.'])
    (hdotdot : c ≠ ['.', '.']) (ht : tail = [] ∨ ∃ t, tail = '/' :: t) :
    cleanLoop (fuel + 1) (c ++ tail) rooted out dotdot
      = cleanLoop fuel tail rooted
          (out ++ (if (rooted && out.length != 1) || (!rooted && out.length != 0) then ['/']
            else []) ++ c) dotdot := by
  obtain ⟨h1, h2⟩ := takeWhile_dropWhile_component c tail hsep ht
  cases c with
  | nil => exact absurd rfl hne
  | cons a c =>
    have ha : a ≠ '/' := fun h => hsep (by simp [h])
    have hc : '/' ∉ c := fun h => hsep (List.mem_cons_of_mem a h)
    have hsepa : isPathSeparator a = false := by simp [isPathSeparator, ha]
    have hcond2 : ¬ (a = '.' ∧ (c ++ tail = []
        ∨ (c ++ tail).head?.map isPathSeparator = some true)) := by
      rintro ⟨hdota, h⟩
      cases c with
      | nil => exact hdot (by rw [hdota])
      | cons b c =>
        have hb : b ≠ '/' := fun h => hc (by simp [h])
        simp [isPathSeparator, hb] at h
    have hcond3 : ¬ (a = '.' ∧ (c ++ tail).head? = some '.'
        ∧ ((c ++ tail).tail = []
          ∨ (c ++ tail).tail.head?.map isPathSeparator = some true)) := by
      rintro ⟨hdota, hhead, h⟩
      cases c with
      | nil =>
        rcases ht with ht | ⟨t, ht⟩ <;> subst ht <;> simp at hhead
      | cons b c =>
        have hb : b = '.' := by simpa using hhead
        cases c with
        | nil => exact hdotdot (by rw [hdota, hb])
        | cons b2 c =>
          have hb2 : b2 ≠ '/' := fun h => hc (by simp [h])
          simp [isPathSeparator, hb2] at h
    rw [List.cons_append] at h1 h2 ⊢
    simp only [cleanLoop, hsepa, Bool.false_eq_true, if_false, hcond2, hcond3, h1, h2]
    split <;> simp

theorem ordinaryComponent_data (c : String) (h : ordinaryComponent c) :
    c.data ≠ [] ∧ '/' ∉ c.data ∧ c.data ≠ ['.'] ∧ c.data ≠ ['.', '.'] := by
  obtain ⟨h1, h2, h3, h4⟩ := h
  refine ⟨?_, h2, ?_, ?_⟩
  · intro hd
    exact h1 (String.ext hd)
  · intro hd
    exact h3 (String.ext hd)
  · intro hd
    exact h4 (String.ext hd)

theorem joinComponents_ne_nil (comps : List String)
    (hcomps : ∀ c ∈ comps, ordinaryComponent c) (hne : comps ≠ []) :
    (joinComponents comps).data ≠ [] := by
  cases comps with
  | nil => exact absurd rfl hne
  | cons c cs =>
    have hc := (ordinaryComponent_data c (hcomps c (List.mem_cons_self c cs))).1
    cases cs with
    | nil => simpa [joinComponents] using hc
    | cons d cs => simp [joinComponents, String.data_append, hc]

/-- The loop of `Clean` on a path of ordinary elements, with or without a final
separator: the elements are copied with one separator between them. -/
theorem cleanLoop_components (comps : List String)
    (hcomps : ∀ c ∈ comps, ordinaryComponent c) (hne : comps ≠ []) :
    ∀ (fuel : Nat) (trailing : List Char) (rooted : Bool) (out : List Char) (dotdot : Nat),
      (trailing = [] ∨ trailing = ['/']) → (rooted = true → out ≠ []) →
      (joinComponents comps).data.length + trailing.length < fuel →
      cleanLoop fuel ((joinComponents comps).data ++ trailing) rooted out dotdot
        = out ++ (if (rooted && out.length != 1) || (!rooted && out.length != 0) then ['/']
            else []) ++ (joinComponents comps).data := by
  induction comps with
  | nil => exact absurd rfl hne
  | cons c cs ih =>
    intro fuel trailing rooted out dotdot htr hroot hfuel
    obtain ⟨hc1, hc2, hc3, hc4⟩ := ordinaryComponent_data c (hcomps c (List.mem_cons_self c cs))
    cases fuel with
    | zero => omega
    | succ k =>
      cases cs with
      | nil =>
        simp only [joinComponents]
        rw [cleanLoop_component k c.data trailing rooted out dotdot hc1 hc2 hc3 hc4
          (by rcases htr with h | h <;> subst h <;> simp)]
        rcases htr with h | h <;> subst h
        · exact cleanLoop_nil _ _ _ _
        · exact cleanLoop_separator _ _ _ _
      | cons d cs =>
        have hcs : ∀ x ∈ d :: cs, ordinaryComponent x :=
          fun x hx => hcomps x (List.mem_cons_of_mem c hx)
        have hdata : (joinComponents (c :: d :: cs)).data
            = c.data ++ '/' :: (joinComponents (d :: cs)).data := by
          simp [joinComponents, String.data_append]
        rw [hdata] at hfuel ⊢
        rw [List.append_assoc, List.cons_append]
        rw [cleanLoop_component k c.data _ rooted out dotdot hc1 hc2 hc3 hc4 (Or.inr ⟨_, rfl⟩)]
        simp only [List.length_append, List.length_cons] at hfuel
        have hlen : 0 < c.data.length := List.length_pos.mpr hc1
        cases k with
        | zero => omega
        | succ j =>
          have hstep : ∀ (rest o : List Char),
              cleanLoop (j + 1) ('/' :: rest) rooted o dotdot = cleanLoop j rest rooted o dotdot := by
            intro rest o
            simp [cleanLoop, isPathSeparator]
          rw [hstep]
          rw [ih hcs (by simp) j trailing rooted _ dotdot htr (by simp [hc1]) (by omega)]
          have hneed : ((rooted && (out ++ (if (rooted && out.length != 1)
                || (!rooted && out.length != 0) then ['/'] else []) ++ c.data).length != 1)
              || (!rooted && (out ++ (if (rooted && out.length != 1)
                || (!rooted && out.length != 0) then ['/'] else []) ++ c.data).length != 0))
              = true := by
            cases rooted with
            | false =>
              simp only [Bool.false_and, Bool.not_false, Bool.true_and, Bool.false_or,
                bne_iff_ne, ne_eq, List.length_append]
              omega
            | true =>
              have ho : 0 < out.length := List.length_pos.mpr (hroot rfl)
              simp only [Bool.true_and, Bool.not_true, Bool.false_and, Bool.or_false,
                bne_iff_ne, ne_eq, List.length_append]
              omega
          rw [if_pos hneed]
          simp [List.append_assoc]

theorem joinComponents_append_singleton (comps : List String) (e : String)
    (hne : comps ≠ []) :
    joinComponents (comps ++ [e]) = joinComponents comps ++ "/" ++ e := by
  induction comps with
  | nil => exact absurd rfl hne
  | cons c cs ih =>
    cases cs with
    | nil => simp [joinComponents]
    | cons d cs =>
      have h := ih (by simp)
      simp only [List.cons_append] at h ⊢
      simp only [joinComponents, h, String.append_assoc]

theorem head_joinComponents (comps : List String)
    (hcomps : ∀ c ∈ comps, ordinaryComponent c) (hne : comps ≠ []) :
    ∃ a rest, (joinComponents comps).data = a :: rest ∧ a ≠ '/' := by
  cases comps with
  | nil => exact absurd rfl hne
  | cons c cs =>
    obtain ⟨h1, h2, -, -⟩ := ordinaryComponent_data c (hcomps c (List.mem_cons_self c cs))
    cases hd : c.data with
    | nil => exact absurd hd h1
    | cons a r =>
      have ha : a ≠ '/' := fun h => h2 (by rw [hd, h]; simp)
      cases cs with
      | nil => exact ⟨a, r, by simp [joinComponents, hd], ha⟩
      | cons d cs =>
        exact ⟨a, r ++ '/' :: (joinComponents (d :: cs)).data,
          by simp [joinComponents, String.data_append, hd], ha⟩

/-- `Clean` of a relative path of ordinary elements followed by a separator. -/
theorem filepathClean_components (comps : List String)
    (hcomps : ∀ c ∈ comps, ordinaryComponent c) (hne : comps ≠ []) :
    filepathClean (String.mk ((joinComponents comps).data ++ ['/'])) = joinComponents comps := by
  obtain ⟨a, rest, hd, ha⟩ := head_joinComponents comps hcomps hne
  have hloop := cleanLoop_components comps hcomps hne
    (((joinComponents comps).data ++ ['/']).length + 1) ['/'] false [] 0 (Or.inr rfl)
    (by simp) (by simp)
  unfold filepathClean
  have h1 : String.mk ((joinComponents comps).data ++ ['/']) ≠ "" := by
    intro h
    have := congrArg String.data h
    simp at this
  have h2 : ¬ ((String.mk ((joinComponents comps).data ++ ['/'])).data.head?.map isPathSeparator
      = some true) := by
    simp [hd, isPathSeparator, ha]
  simp only [h1, if_false, h2]
  have h3 : (String.mk ((joinComponents comps).data ++ ['/'])).length
      = ((joinComponents comps).data ++ ['/']).length := rfl
  rw [h3, hloop]
  have h4 : ¬ ([] ++ (if (false && ([] : List Char).length != 1)
      || (!false && ([] : List Char).length != 0) then ['/'] else [])
      ++ (joinComponents comps).data = []) := by
    simp [hd]
  rw [if_neg h4]
  apply String.ext
  simp

/-- `Clean` of a rooted path of ordinary elements followed by a separator. -/
theorem filepathClean_rooted_components (comps : List String)
    (hcomps : ∀ c ∈ comps, ordinaryComponent c) (hne : comps ≠ []) :
    filepathClean (String.mk ('/' :: ((joinComponents comps).data ++ ['/'])))
      = "/" ++ joinComponents comps := by
  have hloop := cleanLoop_components comps hcomps hne
    (('/' :: ((joinComponents comps).data ++ ['/'])).length + 1) ['/'] true ['/'] 1
    (Or.inr rfl) (by simp) (by simp)
  unfold filepathClean
  have h1 : String.mk ('/' :: ((joinComponents comps).data ++ ['/'])) ≠ "" := by
    intro h
    have := congrArg String.data h
    simp at this
  have h2 : (String.mk ('/' :: ((joinComponents comps).data ++ ['/']))).data.head?.map
      isPathSeparator = some true := by
    simp [isPathSeparator]
  simp only [h1, if_false, h2, if_true]
  have h3 : (String.mk ('/' :: ((joinComponents comps).data ++ ['/']))).length
      = ('/' :: ((joinComponents comps).data ++ ['/'])).length := rfl
  have h5 : (String.mk ('/' :: ((joinComponents comps).data ++ ['/']))).data.tail
      = (joinComponents comps).data ++ ['/'] := rfl
  rw [h3, h5, hloop]
  apply String.ext
  simp [String.data_append]

theorem upto_last_separator (x e : List Char) (he : '/' ∉ e) :
    ((x ++ '/' :: e).reverse.dropWhile (fun c => !isPathSeparator c)).reverse = x ++ ['/']
    ∧ (e.reverse.dropWhile (fun c => !isPathSeparator c)).reverse = [] := by
  have hall : ∀ c ∈ e.reverse, (!isPathSeparator c) = true := by
    intro c hc
    have : c ≠ '/' := fun h => he (by rw [← h]; exact List.mem_reverse.mp hc)
    simp [isPathSeparator, this]
  have hdrop : ∀ (l : List Char), (∀ c ∈ l, (!isPathSeparator c) = true) →
      ∀ t, (l ++ t).dropWhile (fun c => !isPathSeparator c)
        = t.dropWhile (fun c => !isPathSeparator c) := by
    intro l
    induction l with
    | nil => intro _ t; rfl
    | cons a l ih =>
      intro h t
      rw [List.cons_append, List.dropWhile_cons, if_pos (h a (List.mem_cons_self a l))]
      exact ih (fun c hc => h c (List.mem_cons_of_mem a hc)) t
  constructor
  · rw [List.reverse_append, List.reverse_cons, List.append_assoc, hdrop _ hall]
    simp [isPathSeparator]
  · have := hdrop _ hall []
    rw [List.append_nil] at this
    rw [this]
    rfl

theorem base_last_element (x e : List Char) (hne : e ≠ []) (he : '/' ∉ e) :
    filepathBase (String.mk (x ++ '/' :: e)) = String.mk e
    ∧ filepathBase (String.mk e) = String.mk e := by
  have hall : ∀ c ∈ e.reverse, (!isPathSeparator c) = true := by
    intro c hc
    have : c ≠ '/' := fun h => he (by rw [← h]; exact List.mem_reverse.mp hc)
    simp [isPathSeparator, this]
  obtain ⟨a, r, hrev⟩ : ∃ a r, e.reverse = a :: r := by
    cases hr : e.reverse with
    | nil => exact absurd (List.reverse_eq_nil_iff.mp hr) hne
    | cons a r => exact ⟨a, r, rfl⟩
  have ha : isPathSeparator a = false := by
    have := hall a (by rw [hrev]; exact List.mem_cons_self a r)
    simpa using this
  have htake : ∀ t : List Char, (t = [] ∨ ∃ u, t = '/' :: u) →
      (e.reverse ++ t).takeWhile (fun c => !isPathSeparator c) = e.reverse := by
    intro t ht
    have hsep : '/' ∉ e.reverse := fun h => he (List.mem_reverse.mp h)
    exact (takeWhile_dropWhile_component e.reverse t hsep ht).1
  constructor
  · unfold filepathBase
    have h1 : String.mk (x ++ '/' :: e) ≠ "" := by
      intro h
      have := congrArg String.data h
      simp at this
    simp only [h1, if_false]
    have hr : (x ++ '/' :: e).reverse = e.reverse ++ '/' :: x.reverse := by
      simp [List.reverse_append]
    have hstrip : ((x ++ '/' :: e).reverse.dropWhile isPathSeparator) = (x ++ '/' :: e).reverse := by
      rw [hr, hrev, List.cons_append, List.dropWhile_cons, if_neg (by simp [ha])]
    simp only [hstrip, List.reverse_reverse]
    rw [hr, htake _ (Or.inr ⟨_, rfl⟩), List.reverse_reverse, if_neg hne]
  · unfold filepathBase
    have h1 : String.mk e ≠ "" := by
      intro h
      exact hne (congrArg String.data h)
    simp only [h1, if_false]
    have hstrip : (e.reverse.dropWhile isPathSeparator) = e.reverse := by
      rw [hrev, List.dropWhile_cons, if_neg (by simp [ha])]
    simp only [hstrip, List.reverse_reverse]
    have := htake [] (Or.inl rfl)
    rw [List.append_nil] at this
    rw [this, List.reverse_reverse, if_neg hne]

/-- `Dir` and `Base` of a path of ordinary elements, relative or rooted: `Base` is
the last element and `Dir` is the path of the elements before it (`.` or the root
when there is none). -/
theorem filepath_ordinary (comps : List String) (e : String)
    (hcomps : ∀ c ∈ comps, ordinaryComponent c) (he : ordinaryComponent e) :
    filepathDir (joinComponents (comps ++ [e]))
        = (if comps = [] then "." else joinComponents comps)
    ∧ filepathBase (joinComponents (comps ++ [e])) = e
    ∧ filepathDir ("/" ++ joinComponents (comps ++ [e]))
        = (if comps = [] then "/" else "/" ++ joinComponents comps)
    ∧ filepathBase ("/" ++ joinComponents (comps ++ [e])) = e := by
  obtain ⟨he1, he2, -, -⟩ := ordinaryComponent_data e he
  by_cases hne : comps = []
  · subst hne
    have hu := upto_last_separator [] e.data he2
    have hb := base_last_element [] e.data he1 he2
    simp only [List.nil_append, joinComponents, if_true]
    refine ⟨?_, hb.2, ?_, ?_⟩
    · unfold filepathDir
      rw [hu.2]
      rfl
    · unfold filepathDir
      have : ("/" ++ e).data = [] ++ '/' :: e.data := by simp [String.data_append]
      rw [this, hu.1]
      decide
    · have : "/" ++ e = String.mk ([] ++ '/' :: e.data) := by
        apply String.ext
        simp [String.data_append]
      rw [this]
      exact hb.1
  · have hj := joinComponents_append_singleton comps e hne
    have hd : (joinComponents (comps ++ [e])).data
        = (joinComponents comps).data ++ '/' :: e.data := by
      rw [hj]
      simp [String.data_append]
    have hd2 : ("/" ++ joinComponents (comps ++ [e])).data
        = ('/' :: (joinComponents comps).data) ++ '/' :: e.data := by
      rw [String.data_append, hd]
      rfl
    simp only [hne, if_false]
    refine ⟨?_, ?_, ?_, ?_⟩
    · unfold filepathDir
      rw [hd, (upto_last_separator _ e.data he2).1]
      exact filepathClean_components comps hcomps hne
    · have : joinComponents (comps ++ [e])
          = String.mk ((joinComponents comps).data ++ '/' :: e.data) := String.ext hd
      rw [this]
      exact (base_last_element _ e.data he1 he2).1
    · unfold filepathDir
      rw [hd2, (upto_last_separator _ e.data he2).1]
      exact filepathClean_rooted_components comps hcomps hne
    · have : "/" ++ joinComponents (comps ++ [e])
          = String.mk (('/' :: (joinComponents comps).data) ++ '/' :: e.data) := String.ext hd2
      rw [this]
      exact (base_last_element _ e.data he1 he2).1

/-! ## Output names -/

theorem stringsHasSuffix_iff (s suffix : String) :
    stringsHasSuffix s suffix = true ↔ ∃ t : String, s = t ++ suffix := by
  unfold stringsHasSuffix
  rw [decide_eq_true_iff]
  constructor
  · rintro ⟨_, hdrop⟩
    refine ⟨String.mk (s.data.take (s.length - suffix.length)), ?_⟩
    apply String.ext
    rw [String.data_append, ← hdrop]
    exact (List.take_append_drop _ _).symm
  · rintro ⟨t, rfl⟩
    refine ⟨by rw [String.length_append]; omega, ?_⟩
    rw [String.length_append, Nat.add_sub_cancel, String.data_append]
    exact List.drop_left' rfl

theorem baseName_of_suffix (r : CodeGeneratorRequest) (f : FileDescriptor)
    (h : stringsHasSuffix (filepathBase f.name) ".proto" = true) :
    (genNameContext r f).BaseName ++ ".proto" = filepathBase f.name := by
  have h0 := h
  unfold stringsHasSuffix at h0
  rw [decide_eq_true_iff] at h0
  obtain ⟨_, hdrop⟩ := h0
  simp only [genNameContext, h, if_true]
  apply String.ext
  rw [String.data_append]
  conv_lhs => rw [← hdrop]
  exact List.take_append_drop _ _

/-- C17. The context built by `genName` for a file named `p`: `Dir` is
`filepath.Dir(p)`; when the last element `filepath.Base(p)` ends with `.proto`,
`BaseName` followed by `.proto` is that element (the suffix is taken off once), and
otherwise `BaseName` is the element itself; the pattern is evaluated against this
context. For a path of ordinary elements (relative or rooted) `Base` is the last
element and `Dir` the path of the elements before it, so that the name
`d1/../dn/b.proto` gives `Dir = d1/../dn` and `BaseName = b`; on the examples of the
Go documentation and on paths with empty, `.` and `..` elements `Dir` and `Base`
take the documented values. -/
theorem genNameContext_dir_baseName (r : CodeGeneratorRequest) (f : FileDescriptor) :
    (genNameContext r f).Dir = filepathDir f.name
    ∧ (stringsHasSuffix (filepathBase f.name) ".proto" = true →
        (genNameContext r f).BaseName ++ ".proto" = filepathBase f.name)
    ∧ (stringsHasSuffix (filepathBase f.name) ".proto" = false →
        (genNameContext r f).BaseName = filepathBase f.name)
    ∧ (∀ s suffix : String, stringsHasSuffix s suffix = true ↔ ∃ t : String, s = t ++ suffix)
    ∧ (∀ (tmpl : TemplateEngine) (pattern : String),
        genName tmpl r f pattern = tmpl pattern (genNameContext r f))
    ∧ (∀ (comps : List String) (e : String), (∀ c ∈ comps, ordinaryComponent c) →
        ordinaryComponent e →
        (f.name = joinComponents (comps ++ [e]) →
          (genNameContext r f).Dir = (if comps = [] then "." else joinComponents comps)
          ∧ filepathBase f.name = e)
        ∧ (f.name = "/" ++ joinComponents (comps ++ [e]) →
          (genNameContext r f).Dir = (if comps = [] then "/" else "/" ++ joinComponents comps)
          ∧ filepathBase f.name = e))
    ∧ (∀ (comps : List String) (b : String), (∀ c ∈ comps, ordinaryComponent c) →
        ordinaryComponent (b ++ ".proto") →
        f.name = joinComponents (comps ++ [b ++ ".proto"]) →
        (genNameContext r f).Dir = (if comps = [] then "." else joinComponents comps)
        ∧ (genNameContext r f).BaseName = b)
    ∧ pathExamples.all
        (fun t => decide (filepathDir t.1 = t.2.1 ∧ filepathBase t.1 = t.2.2)) = true := by
  refine ⟨rfl, baseName_of_suffix r f, ?_, stringsHasSuffix_iff, fun _ _ => rfl, ?_, ?_,
    by decide⟩
  · intro h
    simp [genNameContext, h]
  · intro comps e hcomps he
    obtain ⟨h1, h2, h3, h4⟩ := filepath_ordinary comps e hcomps he
    constructor
    · intro hname
      have hd : (genNameContext r f).Dir = filepathDir f.name := rfl
      rw [hd, hname]
      exact ⟨h1, h2⟩
    · intro hname
      have hd : (genNameContext r f).Dir = filepathDir f.name := rfl
      rw [hd, hname]
      exact ⟨h3, h4⟩
  · intro comps b hcomps hb hname
    obtain ⟨h1, h2, -, -⟩ := filepath_ordinary comps (b ++ ".proto") hcomps hb
    have hd : (genNameContext r f).Dir = filepathDir f.name := rfl
    refine ⟨by rw [hd, hname]; exact h1, ?_⟩
    have hbase : filepathBase f.name = b ++ ".proto" := by rw [hname]; exact h2
    have hsuf : stringsHasSuffix (filepathBase f.name) ".proto" = true :=
      (stringsHasSuffix_iff _ _).mpr ⟨b, hbase⟩
    have h := baseName_of_suffix r f hsuf
    rw [hbase] at h
    have hdata := congrArg String.data h
    rw [String.data_append, String.data_append] at hdata
    exact String.ext (List.append_cancel_right hdata)

theorem genNameContext_dir_baseName_witness :
    (genNameContext {} (personFile "a/b/foo.proto")).Dir = "a/b"
    ∧ (genNameContext {} (personFile "a/b/foo.proto")).BaseName = "foo"
    ∧ (genNameContext {} (personFile "a/b/foo.proto")).BaseName ++ ".proto" = "foo.proto"
    ∧ (genNameContext {} (personFile "x.proto.proto")).BaseName = "x.proto"
    ∧ (genNameContext {} (personFile "docs/README")).BaseName = "README"
    ∧ (genNameContext {} (personFile "a/b/../c/foo.proto")).Dir = "a/c" := by
  have h1 := genNameContext_dir_baseName {} (personFile "a/b/foo.proto")
  have h2 := genNameContext_dir_baseName {} (personFile "docs/README")
  have h3 := h1.2.2.2.2.2.2.1 ["a", "b"] "foo" (by decide) (by decide) (by decide)
  have h4 := (genNameContext_dir_baseName {} (personFile "a/b/../c/foo.proto")).1
  refine ⟨h3.1.trans (by decide), h3.2, (h1.2.1 (by decide)).trans (by decide), by decide,
    (h2.2.2.1 (by decide)).trans (by decide), h4.trans (by decide)⟩

/-- C18 (the code at the failing input). For the file `c++/a&b.proto` the context has
`Dir = c++` and `BaseName = a&b`, and the pattern `{{.Dir}}/{{.BaseName}}.d.ts`
evaluates to `c&#43;&#43;/a&amp;b.d.ts`: the values went through the HTML escaper of
`html/template`, so the result is not `c++/a&b.d.ts`. The same holds with every
engine that renders the known patterns. -/
theorem genName_escapes_html :
    (genNameContext {} (personFile "c++/a&b.proto")).Dir = "c++"
    ∧ (genNameContext {} (personFile "c++/a&b.proto")).BaseName = "a&b"
    ∧ genName htmlTemplate {} (personFile "c++/a&b.proto")
        "\x7b\x7b.Dir\x7d\x7d/\x7b\x7b.BaseName\x7d\x7d.d.ts"
      = some "c&#43;&#43;/a&amp;b.d.ts"
    ∧ genName htmlTemplate {} (personFile "c++/a&b.proto")
        "\x7b\x7b.Dir\x7d\x7d/\x7b\x7b.BaseName\x7d\x7d.d.ts"
      ≠ some ("c++" ++ "/" ++ "a&b" ++ ".d.ts")
    ∧ (∀ tmpl : TemplateEngine, tmpl.rendersKnown →
        genName tmpl {} (personFile "c++/a&b.proto")
            "\x7b\x7b.Dir\x7d\x7d/\x7b\x7b.BaseName\x7d\x7d.d.ts"
          = some "c&#43;&#43;/a&amp;b.d.ts"
        ∧ genName tmpl {} (personFile "c++/a&b.proto")
            "\x7b\x7b.Dir\x7d\x7d/\x7b\x7b.BaseName\x7d\x7d.d.ts"
          ≠ some ("c++" ++ "/" ++ "a&b" ++ ".d.ts")) := by
  refine ⟨by decide, by decide, by decide, by decide, ?_⟩
  intro tmpl h
  have h1 : genName tmpl {} (personFile "c++/a&b.proto")
      "\x7b\x7b.Dir\x7d\x7d/\x7b\x7b.BaseName\x7d\x7d.d.ts"
      = some "c&#43;&#43;/a&amp;b.d.ts" := h _ _ _ (by decide)
  exact ⟨h1, by rw [h1]; decide⟩

/-! ## All files -/

theorem decIndent_of_indent (g : Generator) (s : String) (h : g.indent = s ++ indent) :
    g.decIndent = some { g with indent := s } := by
  have h1 := decIndent_incIndent { g with indent := s }
  have h2 : Generator.incIndent { g with indent := s } = g := by
    simp only [Generator.incIndent]
    rw [← h]
  rw [h2] at h1
  exact h1

theorem generateAllFilesBody_eq (tmpl : TemplateEngine)
    (files : String → Option FileDescriptor)
    (params : Parameters) (g : Generator) (n : String) (f : FileDescriptor)
    (ty : FieldDescriptor → String) (nm : String) (hf : files n = some f)
    (hty : ∀ m ∈ f.messageTypes, ∀ fd ∈ m.fields, fieldType fd = some (ty fd))
    (hn : genName tmpl g.Request f params.OutputNamePattern = some nm) :
    generateAllFilesBody tmpl files params g n
      = some { g with
          Buffer := "",
          Response := { File := g.Response.File
            ++ [{ Name := nm, Content := g.Buffer ++ fileContent g.indent params ty f }] } } := by
  unfold generateAllFilesBody
  simp only [hf]
  cases hns : params.DeclareNamespace with
  | false =>
    simp only [Bool.false_eq_true, if_false]
    rw [generate_eq g f params ty hty]
    simp only [hn]
    simp [fileContent, hns]
  | true =>
    simp only [if_true]
    rw [generate_eq _ f params ty hty]
    simp only []
    rw [decIndent_of_indent _ g.indent (by simp [Generator.incIndent, Generator.W, Generator.w])]
    simp only []
    have hr : (Generator.W
        { (g.W ("declare namespace " ++ f.package ++ " \x7b\n")).incIndent with
          Buffer := (g.W ("declare namespace " ++ f.package ++ " \x7b\n")).incIndent.Buffer
            ++ fileDecls (g.W ("declare namespace " ++ f.package ++ " \x7b\n")).incIndent.indent
              params ty f,
          indent := g.indent } "\x7d\n").Request = g.Request := rfl
    rw [hr, hn]
    simp [fileContent, hns, Generator.incIndent, Generator.W, Generator.w, String.append_assoc]

/-- The loop of `GenerateAllFiles` from an empty buffer. -/
theorem foldlM_body_of_empty (tmpl : TemplateEngine)
    (files : String → Option FileDescriptor) (params : Parameters)
    (ty : FieldDescriptor → String) (file : String → FileDescriptor)
    (outName : String → String) (r : CodeGeneratorRequest) (names : List String)
    (hyp : ∀ n ∈ names, files n = some (file n)
      ∧ (∀ m ∈ (file n).messageTypes, ∀ fd ∈ m.fields, fieldType fd = some (ty fd))
      ∧ genName tmpl r (file n) params.OutputNamePattern = some (outName n))
    (g : Generator) (hb : g.Buffer = "") (hr : g.Request = r) :
    names.foldlM (generateAllFilesBody tmpl files params) g
      = some { g with
          Response := { File := g.Response.File
            ++ names.map (fun n =>
                { Name := outName n, Content := fileContent g.indent params ty (file n) }) } } := by
  induction names generalizing g with
  | nil => simp
  | cons n rest ih =>
    obtain ⟨hf, hty, hn⟩ := hyp n (List.mem_cons_self n rest)
    simp only [List.foldlM_cons]
    rw [generateAllFilesBody_eq tmpl files params g n (file n) ty (outName n) hf hty (by rw [hr]; exact hn)]
    simp only [Option.some_bind, Option.bind_eq_bind]
    refine (ih (fun k hk => hyp k (List.mem_cons_of_mem n hk)) _ ?_ ?_).trans ?_
    · rfl
    · exact hr
    · simp [hb]

theorem foldlM_body_eq (tmpl : TemplateEngine)
    (files : String → Option FileDescriptor) (params : Parameters)
    (ty : FieldDescriptor → String) (file : String → FileDescriptor)
    (outName : String → String) (names : List String) (g : Generator)
    (hyp : ∀ n ∈ names, files n = some (file n)
      ∧ (∀ m ∈ (file n).messageTypes, ∀ fd ∈ m.fields, fieldType fd = some (ty fd))
      ∧ genName tmpl g.Request (file n) params.OutputNamePattern = some (outName n)) :
    names.foldlM (generateAllFilesBody tmpl files params) g
      = some { g with
          Buffer := if names = [] then g.Buffer else "",
          Response := { File := g.Response.File
            ++ responseFiles g.Buffer g.indent params ty file outName names } } := by
  cases names with
  | nil => simp [responseFiles]
  | cons n rest =>
    obtain ⟨hf, hty, hn⟩ := hyp n (List.mem_cons_self n rest)
    simp only [List.foldlM_cons]
    rw [generateAllFilesBody_eq tmpl files params g n (file n) ty (outName n) hf hty hn]
    simp only [Option.some_bind, Option.bind_eq_bind]
    refine (foldlM_body_of_empty tmpl files params ty file outName g.Request rest
      (fun k hk => hyp k (List.mem_cons_of_mem n hk)) _ ?_ ?_).trans ?_
    · rfl
    · rfl
    · simp [responseFiles]

theorem mem_sortStrings (names : List String) (n : String) :
    n ∈ sortStrings names ↔ n ∈ names :=
  (List.perm_insertionSort _ names).mem_iff

theorem sortStrings_perm (names1 names2 : List String) (h : names1.Perm names2) :
    sortStrings names1 = sortStrings names2 := by
  unfold sortStrings
  exact List.eq_of_perm_of_sorted
    (((List.perm_insertionSort _ names1).trans h).trans (List.perm_insertionSort _ names2).symm)
    (List.sorted_insertionSort _ names1) (List.sorted_insertionSort _ names2)

theorem GenerateAllFiles_eq (tmpl : TemplateEngine) (g : Generator)
    (files : String → Option FileDescriptor)
    (params : Parameters) (ty : FieldDescriptor → String) (file : String → FileDescriptor)
    (outName : String → String)
    (hyp : ∀ n ∈ g.Request.FileToGenerate, files n = some (file n)
      ∧ (∀ m ∈ (file n).messageTypes, ∀ fd ∈ m.fields, fieldType fd = some (ty fd))
      ∧ genName tmpl g.Request (file n) params.OutputNamePattern = some (outName n)) :
    GenerateAllFiles tmpl g files params
      = some { g with
          Buffer := (if sortStrings g.Request.FileToGenerate = [] then
              g.Buffer ++ (g.indent ++ headerLine ++ "\n") else ""),
          Response :=
            { File := g.Response.File
                ++ responseFiles (g.Buffer ++ (g.indent ++ headerLine ++ "\n")) g.indent
                  params ty file outName (sortStrings g.Request.FileToGenerate) } } := by
  unfold GenerateAllFiles
  simp only []
  have hreq : (g.W headerLine).Request = g.Request := rfl
  rw [hreq]
  rw [foldlM_body_eq tmpl files params ty file outName _ (g.W headerLine)
    (fun n hn => hyp n ((mem_sortStrings _ n).mp hn))]
  simp [W_eq]

theorem length_responseFiles (start ind : String) (params : Parameters)
    (ty : FieldDescriptor → String) (file : String → FileDescriptor)
    (outName : String → String) (names : List String) :
    (responseFiles start ind params ty file outName names).length = names.length := by
  cases names <;> simp [responseFiles]

theorem names_responseFiles (start ind : String) (params : Parameters)
    (ty : FieldDescriptor → String) (file : String → FileDescriptor)
    (outName : String → String) (names : List String) :
    (responseFiles start ind params ty file outName names).map (fun r => r.Name)
      = names.map outName := by
  cases names <;> simp [responseFiles, Function.comp_def]

/-- The contents of the response files do not depend on the output names. -/
theorem contents_responseFiles (start ind : String) (params : Parameters)
    (ty : FieldDescriptor → String) (file : String → FileDescriptor)
    (outName1 outName2 : String → String) (names : List String) :
    (responseFiles start ind params ty file outName1 names).map (fun r => r.Content)
      = (responseFiles start ind params ty file outName2 names).map (fun r => r.Content) := by
  cases names <;> simp [responseFiles, Function.comp_def]

theorem responseFiles_congr (start ind : String) (params : Parameters)
    (ty : FieldDescriptor → String) (file : String → FileDescriptor)
    (outName1 outName2 : String → String) (names : List String)
    (h : ∀ n ∈ names, outName1 n = outName2 n) :
    responseFiles start ind params ty file outName1 names
      = responseFiles start ind params ty file outName2 names := by
  cases names with
  | nil => rfl
  | cons n rest =>
    simp only [responseFiles]
    rw [h n (List.mem_cons_self n rest)]
    congr 1
    apply List.map_congr_left
    intro k hk
    rw [h k (List.mem_cons_of_mem n hk)]

theorem sortStrings_sample :
    sortStrings ["zoo.proto", "a/b/foo.proto"] = ["a/b/foo.proto", "zoo.proto"] := by
  have hlt : "a/b/foo.proto" < "zoo.proto" := by
    rw [String.lt_iff_toList_lt]
    decide
  have h : ¬ ("zoo.proto" ≤ "a/b/foo.proto") := not_le.mpr hlt
  simp [sortStrings, List.insertionSort, List.orderedInsert, h]

theorem sortStrings_sample_swapped :
    sortStrings ["a/b/foo.proto", "zoo.proto"] = ["a/b/foo.proto", "zoo.proto"] :=
  (sortStrings_perm _ _ (List.Perm.swap _ _ _)).trans sortStrings_sample

/-- The names of the response files for the two sample files, from the names the
engine gives them. -/
theorem GenerateAllFiles_sample_names (tmpl : TemplateEngine) (g : Generator)
    (params : Parameters) (outName : String → String)
    (hg : g.Request.FileToGenerate = ["zoo.proto", "a/b/foo.proto"]
      ∨ g.Request.FileToGenerate = ["a/b/foo.proto", "zoo.proto"])
    (hresp : g.Response.File = [])
    (hname : ∀ n, n = "zoo.proto" ∨ n = "a/b/foo.proto" →
      genName tmpl g.Request (personFile n) params.OutputNamePattern = some (outName n)) :
    (GenerateAllFiles tmpl g sampleFiles params).map
        (fun r => r.Response.File.map (fun x => x.Name))
      = some [outName "a/b/foo.proto", outName "zoo.proto"] := by
  have hmem : ∀ n ∈ g.Request.FileToGenerate, n = "zoo.proto" ∨ n = "a/b/foo.proto" := by
    intro n hn
    rcases hg with h | h <;> rw [h] at hn <;> simp at hn <;> tauto
  have hsort : sortStrings g.Request.FileToGenerate = ["a/b/foo.proto", "zoo.proto"] := by
    rcases hg with h | h <;> rw [h]
    · exact sortStrings_sample
    · exact sortStrings_sample_swapped
  rw [GenerateAllFiles_eq tmpl g sampleFiles params (fun _ => "string") personFile outName
    (by
      intro n hn
      have h2 := hmem n hn
      refine ⟨?_, ?_, hname n h2⟩
      · rcases h2 with h | h <;> subst h <;> simp [sampleFiles]
      · intro m hm fd hfd
        have hm2 : m = personMessage := by simpa [personFile] using hm
        subst hm2
        have hfd2 : fd = nameField := by simpa [personMessage, MessageDescriptor.fields] using hfd
        subst hfd2
        decide)]
  simp only [Option.map_some', List.map_append, names_responseFiles, hresp, hsort]
  rfl

/-- C13 (counterexample). The output name pattern
`{{index .Request.FileToGenerate 0}}-{{.BaseName}}.d.ts` is evaluated against the
request as it was received: with the requested names `zoo.proto, a/b/foo.proto` the
response files are named `zoo.proto-foo.d.ts` and `zoo.proto-zoo.d.ts`, with the same
names in the other order they are named `a/b/foo.proto-foo.d.ts` and
`a/b/foo.proto-zoo.d.ts`. The two requests differ in the order of `FileToGenerate`
only, and their response file lists differ, with every engine that renders the known
patterns. -/
theorem GenerateAllFiles_names_depend_on_request_order :
    requestGeneratorSwapped
      = { requestGenerator with
          Request := { FileToGenerate := ["a/b/foo.proto", "zoo.proto"] } }
    ∧ List.Perm ["a/b/foo.proto", "zoo.proto"] requestGenerator.Request.FileToGenerate
    ∧ (GenerateAllFiles htmlTemplate requestGenerator sampleFiles indexParams).map
          (fun r => r.Response.File.map (fun x => x.Name))
        = some ["zoo.proto-foo.d.ts", "zoo.proto-zoo.d.ts"]
    ∧ (GenerateAllFiles htmlTemplate requestGeneratorSwapped sampleFiles indexParams).map
          (fun r => r.Response.File.map (fun x => x.Name))
        = some ["a/b/foo.proto-foo.d.ts", "a/b/foo.proto-zoo.d.ts"]
    ∧ (∀ tmpl : TemplateEngine, tmpl.rendersKnown →
        (GenerateAllFiles tmpl requestGenerator sampleFiles indexParams).map
            (fun r => r.Response.File)
          ≠ (GenerateAllFiles tmpl requestGeneratorSwapped sampleFiles indexParams).map
            (fun r => r.Response.File)) := by
  have key : ∀ tmpl : TemplateEngine, tmpl.rendersKnown →
      (GenerateAllFiles tmpl requestGenerator sampleFiles indexParams).map
          (fun r => r.Response.File.map (fun x => x.Name))
        = some ["zoo.proto-foo.d.ts", "zoo.proto-zoo.d.ts"]
      ∧ (GenerateAllFiles tmpl requestGeneratorSwapped sampleFiles indexParams).map
          (fun r => r.Response.File.map (fun x => x.Name))
        = some ["a/b/foo.proto-foo.d.ts", "a/b/foo.proto-zoo.d.ts"] := by
    intro tmpl h
    constructor
    · exact GenerateAllFiles_sample_names tmpl requestGenerator indexParams
        (fun n => if n = "zoo.proto" then "zoo.proto-zoo.d.ts" else "zoo.proto-foo.d.ts")
        (Or.inl rfl) rfl
        (by
          intro n hn
          rcases hn with hn | hn <;> subst hn <;> exact h _ _ _ (by decide))
    · exact GenerateAllFiles_sample_names tmpl requestGeneratorSwapped indexParams
        (fun n => if n = "zoo.proto" then "a/b/foo.proto-zoo.d.ts"
          else "a/b/foo.proto-foo.d.ts")
        (Or.inr rfl) rfl
        (by
          intro n hn
          rcases hn with hn | hn <;> subst hn <;> exact h _ _ _ (by decide))
  have hself : TemplateEngine.rendersKnown htmlTemplate := fun _ _ _ h => h
  refine ⟨rfl, List.Perm.swap _ _ _, (key htmlTemplate hself).1, (key htmlTemplate hself).2, ?_⟩
  intro tmpl h heq
  obtain ⟨h1, h2⟩ := key tmpl h
  have h3 := congrArg (Option.map (fun l : List CodeGeneratorResponse_File =>
    l.map (fun x => x.Name))) heq
  simp only [Option.map_map, Function.comp_def] at h3
  rw [h1, h2] at h3
  revert h3
  decide

/-- C13 (amended). For a request all of whose requested names resolve (to a
descriptor whose fields have a type and whose output name the engine renders),
`GenerateAllFiles` returns and appends to the response one file per entry of
`FileToGenerate`: the files of the names in ascending order, the i-th with the output
name and the text of the i-th sorted name (the text of the first one after what the
buffer held, the header line included). A request with the same names in another
order gets response files with the same contents in the same order, and the same
response files when the engine gives each file the same output name under both
requests. -/
theorem GenerateAllFiles_sorted (tmpl : TemplateEngine) (g : Generator)
    (files : String → Option FileDescriptor) (params : Parameters)
    (ty : FieldDescriptor → String) (file : String → FileDescriptor)
    (outName : String → String)
    (hyp : ∀ n ∈ g.Request.FileToGenerate, files n = some (file n)
      ∧ (∀ m ∈ (file n).messageTypes, ∀ fd ∈ m.fields, fieldType fd = some (ty fd))
      ∧ genName tmpl g.Request (file n) params.OutputNamePattern = some (outName n)) :
    ∃ g2 : Generator, GenerateAllFiles tmpl g files params = some g2
      ∧ g2.Response.File = g.Response.File
          ++ responseFiles (g.Buffer ++ (g.indent ++ headerLine ++ "\n")) g.indent params ty
              file outName (sortStrings g.Request.FileToGenerate)
      ∧ g2.Response.File.length = g.Response.File.length + g.Request.FileToGenerate.length
      ∧ g2.Response.File.map (fun r => r.Name)
          = g.Response.File.map (fun r => r.Name)
            ++ (sortStrings g.Request.FileToGenerate).map outName
      ∧ (sortStrings g.Request.FileToGenerate).Sorted (fun a b => a ≤ b)
      ∧ (sortStrings g.Request.FileToGenerate).Perm g.Request.FileToGenerate
      ∧ (∀ (names2 : List String) (outName2 : String → String),
          names2.Perm g.Request.FileToGenerate →
          (∀ n ∈ names2, genName tmpl { FileToGenerate := names2 } (file n)
              params.OutputNamePattern = some (outName2 n)) →
          ∃ g3 : Generator,
            GenerateAllFiles tmpl { g with Request := { FileToGenerate := names2 } } files
                params = some g3
            ∧ g3.Response.File.map (fun r => r.Content)
                = g2.Response.File.map (fun r => r.Content)
            ∧ ((∀ n ∈ names2, outName2 n = outName n) →
                g3.Response.File = g2.Response.File)) := by
  have hperm : (sortStrings g.Request.FileToGenerate).Perm g.Request.FileToGenerate :=
    List.perm_insertionSort _ _
  refine ⟨_, GenerateAllFiles_eq tmpl g files params ty file outName hyp, rfl, ?_, ?_,
    List.sorted_insertionSort _ _, hperm, ?_⟩
  · simp only [List.length_append, length_responseFiles]
    rw [hperm.length_eq]
  · simp only [List.map_append, names_responseFiles]
  · intro names2 outName2 h2 hname2
    have hyp2 : ∀ n ∈ names2, files n = some (file n)
        ∧ (∀ m ∈ (file n).messageTypes, ∀ fd ∈ m.fields, fieldType fd = some (ty fd))
        ∧ genName tmpl { FileToGenerate := names2 } (file n) params.OutputNamePattern
          = some (outName2 n) := by
      intro n hn
      obtain ⟨h1, h3, -⟩ := hyp n (h2.mem_iff.mp hn)
      exact ⟨h1, h3, hname2 n hn⟩
    refine ⟨_, GenerateAllFiles_eq tmpl { g with Request := { FileToGenerate := names2 } }
      files params ty file outName2 hyp2, ?_, ?_⟩
    · simp only [List.map_append]
      rw [sortStrings_perm names2 g.Request.FileToGenerate h2,
        contents_responseFiles _ _ _ _ _ outName2 outName]
    · intro hsame
      simp only []
      rw [sortStrings_perm names2 g.Request.FileToGenerate h2]
      rw [responseFiles_congr _ _ _ _ _ outName2 outName _
        (fun n hn => hsame n (h2.mem_iff.mpr ((mem_sortStrings _ n).mp hn)))]

theorem GenerateAllFiles_sorted_witness :
    ∃ g2 : Generator, GenerateAllFiles htmlTemplate requestGenerator sampleFiles defaultParams
        = some g2
      ∧ g2.Response.File.map (fun r => r.Name) = ["a/b/foo.d.ts", "./zoo.d.ts"]
      ∧ (∃ g3 : Generator,
          GenerateAllFiles htmlTemplate requestGeneratorSwapped sampleFiles defaultParams
            = some g3
          ∧ g3.Response.File = g2.Response.File) := by
  obtain ⟨g2, h1, -, -, h4, -, -, h7⟩ := GenerateAllFiles_sorted htmlTemplate requestGenerator
    sampleFiles defaultParams (fun _ => "string") personFile
    (fun n => if n = "zoo.proto" then "./zoo.d.ts" else "a/b/foo.d.ts")
    (by
      intro n hn
      have hn2 : n = "zoo.proto" ∨ n = "a/b/foo.proto" := by
        simpa [requestGenerator] using hn
      rcases hn2 with h | h <;> subst h <;>
        exact ⟨by simp [sampleFiles], by decide, by decide⟩)
  obtain ⟨g3, h8, -, h10⟩ := h7 ["a/b/foo.proto", "zoo.proto"]
    (fun n => if n = "zoo.proto" then "./zoo.d.ts" else "a/b/foo.d.ts")
    (List.Perm.swap _ _ _)
    (by
      intro n hn
      have hn2 : n = "a/b/foo.proto" ∨ n = "zoo.proto" := by simpa using hn
      rcases hn2 with h | h <;> subst h <;> decide)
  refine ⟨g2, h1, ?_, g3, h8, h10 (fun _ _ => rfl)⟩
  rw [h4]
  have hs : requestGenerator.Request.FileToGenerate = ["zoo.proto", "a/b/foo.proto"] := rfl
  rw [hs, sortStrings_sample]
  decide

/-- C14 (the code at the failing input). Two files are requested: the content of the
first response file begins with the header line, the content of the second one is
the declarations alone and does not begin with it; the same with every engine that
renders the known patterns. -/
theorem GenerateAllFiles_header_only_in_first_file :
    (GenerateAllFiles htmlTemplate requestGenerator sampleFiles defaultParams).map
        (fun g => g.Response.File.map (fun f => (f.Name, f.Content)))
      = some [("a/b/foo.d.ts",
            "// Code generated by protoc-gen-tstypes. DO NOT EDIT.\n\nexport interface Person \x7b\n  name?: string;\n\x7d\n\n"),
          ("./zoo.d.ts", "export interface Person \x7b\n  name?: string;\n\x7d\n\n")]
    ∧ "export interface Person \x7b\n  name?: string;\n\x7d\n\n".data.take
          "// Code generated by protoc-gen-tstypes. DO NOT EDIT.".length
        ≠ "// Code generated by protoc-gen-tstypes. DO NOT EDIT.".data
    ∧ (∀ tmpl : TemplateEngine, tmpl.rendersKnown →
        (GenerateAllFiles tmpl requestGenerator sampleFiles defaultParams).map
            (fun g => g.Response.File.map (fun f => (f.Name, f.Content)))
          = some [("a/b/foo.d.ts",
                "// Code generated by protoc-gen-tstypes. DO NOT EDIT.\n\nexport interface Person \x7b\n  name?: string;\n\x7d\n\n"),
              ("./zoo.d.ts", "export interface Person \x7b\n  name?: string;\n\x7d\n\n")]) := by
  have key : ∀ tmpl : TemplateEngine, tmpl.rendersKnown →
      (GenerateAllFiles tmpl requestGenerator sampleFiles defaultParams).map
          (fun g => g.Response.File.map (fun f => (f.Name, f.Content)))
        = some [("a/b/foo.d.ts",
              "// Code generated by protoc-gen-tstypes. DO NOT EDIT.\n\nexport interface Person \x7b\n  name?: string;\n\x7d\n\n"),
            ("./zoo.d.ts", "export interface Person \x7b\n  name?: string;\n\x7d\n\n")] := by
    intro tmpl h
    rw [GenerateAllFiles_eq tmpl requestGenerator sampleFiles defaultParams (fun _ => "string")
      personFile (fun n => if n = "zoo.proto" then "./zoo.d.ts" else "a/b/foo.d.ts")
      (by
        intro n hn
        have hn2 : n = "zoo.proto" ∨ n = "a/b/foo.proto" := by
          simpa [requestGenerator] using hn
        rcases hn2 with hn2 | hn2 <;> subst hn2 <;>
          exact ⟨by simp [sampleFiles], by decide, h _ _ _ (by decide)⟩)]
    have hs : requestGenerator.Request.FileToGenerate = ["zoo.proto", "a/b/foo.proto"] := rfl
    simp only [Option.map_some', hs, sortStrings_sample]
    decide
  exact ⟨key htmlTemplate (fun _ _ _ h => h), by decide, key⟩

/-! ## Indentation balance -/

theorem typed_file_fieldType (f : FileDescriptor) (h : f.typed) :
    ∀ m ∈ f.messageTypes, ∀ fd ∈ m.fields, fieldType fd = some ((fieldType fd).getD "") :=
  fun m hm => typed_fieldType m (h m hm)

/-- C19. The indentation cursor after `generateEnum`, `generateMessage`,
`generateService` and `generate` is the cursor before the call, from every starting
state (for messages and files whose fields have a type, on which the emitters
return). With every template engine and every output name pattern that the engine
renders, the loop body of `GenerateAllFiles` returns with the cursor it started with
for every value of `DeclareNamespace`, so `decIndent` never meets a cursor shorter
than one unit, and `GenerateAllFiles` started with an empty cursor ends with an
empty cursor. -/
theorem indentation_balance (tmpl : TemplateEngine) (params : Parameters) :
    (∀ (g : Generator) (e : EnumDescriptor), (generateEnum g e params).indent = g.indent)
    ∧ (∀ (g : Generator) (m : MessageDescriptor), m.typed →
        ∃ g2 : Generator, generateMessage g m params = some g2 ∧ g2.indent = g.indent)
    ∧ (∀ (g : Generator) (s : ServiceDescriptor),
        ∃ g2 : Generator, generateService g s params = some g2 ∧ g2.indent = g.indent)
    ∧ (∀ (g : Generator) (f : FileDescriptor), f.typed →
        ∃ g2 : Generator, generate g f params = some g2 ∧ g2.indent = g.indent)
    ∧ (∀ (files : String → Option FileDescriptor) (g : Generator) (n : String)
        (f : FileDescriptor), files n = some f → f.typed →
        (genName tmpl g.Request f params.OutputNamePattern).isSome = true →
        ∃ g2 : Generator, generateAllFilesBody tmpl files params g n = some g2
          ∧ g2.indent = g.indent)
    ∧ (∀ (files : String → Option FileDescriptor) (g : Generator), g.indent = "" →
        (∀ n ∈ g.Request.FileToGenerate, ∃ f : FileDescriptor, files n = some f ∧ f.typed
          ∧ (genName tmpl g.Request f params.OutputNamePattern).isSome = true) →
        ∃ g2 : Generator, GenerateAllFiles tmpl g files params = some g2 ∧ g2.indent = "") := by
  refine ⟨?_, ?_, ?_, ?_, ?_, ?_⟩
  · intro g e
    rw [generateEnum_eq]
  · intro g m hm
    exact ⟨_, generateMessage_eq g m params _ (typed_fieldType m hm), rfl⟩
  · intro g s
    exact ⟨_, generateService_eq g s params, rfl⟩
  · intro g f hf
    exact ⟨_, generate_eq g f params _ (typed_file_fieldType f hf), rfl⟩
  · intro files g n f hfile hf hname
    cases hnm : genName tmpl g.Request f params.OutputNamePattern with
    | none => simp [hnm] at hname
    | some nm =>
      exact ⟨_, generateAllFilesBody_eq tmpl files params g n f _ nm hfile
        (typed_file_fieldType f hf) hnm, rfl⟩
  · intro files g hind hyp
    have hyp2 : ∀ n ∈ g.Request.FileToGenerate,
        files n = some ((files n).getD ⟨"", "", [], [], []⟩)
        ∧ (∀ m ∈ ((files n).getD ⟨"", "", [], [], []⟩).messageTypes, ∀ fd ∈ m.fields,
            fieldType fd = some ((fieldType fd).getD ""))
        ∧ genName tmpl g.Request ((files n).getD ⟨"", "", [], [], []⟩)
            params.OutputNamePattern
          = some ((genName tmpl g.Request ((files n).getD ⟨"", "", [], [], []⟩)
              params.OutputNamePattern).getD "") := by
      intro n hn
      obtain ⟨f, hfile, hf, hname⟩ := hyp n hn
      rw [hfile]
      simp only [Option.getD_some]
      refine ⟨trivial, typed_file_fieldType f hf, ?_⟩
      cases hnm : genName tmpl g.Request f params.OutputNamePattern with
      | none => simp [hnm] at hname
      | some nm => rfl
    exact ⟨_, GenerateAllFiles_eq tmpl g files params _ _ _ hyp2, hind⟩

theorem indentation_balance_witness :
    (∃ g2 : Generator,
        GenerateAllFiles htmlTemplate requestGenerator sampleFiles namespaceParams = some g2
      ∧ g2.indent = "")
    ∧ (∃ g2 : Generator,
        GenerateAllFiles htmlTemplate requestGenerator sampleFiles defaultParams = some g2
      ∧ g2.indent = "")
    ∧ (∃ g2 : Generator,
        GenerateAllFiles upperEngine requestGenerator sampleFiles upperParams = some g2
      ∧ g2.indent = "")
    ∧ (∃ g2 : Generator, generate nestedGenerator mainFile defaultParams = some g2
      ∧ g2.indent = nestedGenerator.indent) := by
  have hyp : ∀ (tmpl : TemplateEngine) (pattern : String),
      (∀ n, n = "zoo.proto" ∨ n = "a/b/foo.proto" →
        (tmpl pattern (genNameContext requestGenerator.Request (personFile n))).isSome = true) →
      ∀ n ∈ requestGenerator.Request.FileToGenerate, ∃ f : FileDescriptor,
        sampleFiles n = some f ∧ f.typed
          ∧ (genName tmpl requestGenerator.Request f pattern).isSome = true := by
    intro tmpl pattern h n hn
    have hn2 : n = "zoo.proto" ∨ n = "a/b/foo.proto" := by
      simpa [requestGenerator] using hn
    have h3 := h n hn2
    rcases hn2 with h2 | h2 <;> subst h2
    · exact ⟨personFile "zoo.proto", by simp [sampleFiles], by decide, h3⟩
    · exact ⟨personFile "a/b/foo.proto", by simp [sampleFiles], by decide, h3⟩
  exact ⟨(indentation_balance htmlTemplate namespaceParams).2.2.2.2.2 sampleFiles
      requestGenerator rfl
      (hyp htmlTemplate _ (by intro n hn; rcases hn with h | h <;> subst h <;> decide)),
    (indentation_balance htmlTemplate defaultParams).2.2.2.2.2 sampleFiles requestGenerator rfl
      (hyp htmlTemplate _ (by intro n hn; rcases hn with h | h <;> subst h <;> decide)),
    (indentation_balance upperEngine upperParams).2.2.2.2.2 sampleFiles requestGenerator rfl
      (hyp upperEngine _ (by intro n hn; rcases hn with h | h <;> subst h <;> decide)),
    (indentation_balance htmlTemplate defaultParams).2.2.2.1 nestedGenerator mainFile
      (by decide)⟩

end gentstypes
